import Mathlib

/-!
Verification of the EQ/NE simplifier visitors of `src/Simplify_EQ.cpp`
(Halide-AS repository).

The IR expression model, its typing, and the lanewise evaluation semantics
are a shallow embedding of the compiler's expression data model (spec §3,
§4.1).  The two visitor functions `Simplify.visit_eq` and `Simplify.visit_ne`
are translated directly from `Simplify::visit(const EQ *, ConstBounds *)`
and `Simplify::visit(const NE *, ConstBounds *)` in `src/Simplify_EQ.cpp`.
The recursive simplifier `mutate`, the alignment-context modulus-remainder
analysis, and the type-eligibility helpers are code of the repository that
is not under `src/`; they are modelled from the spec and the visitors are
parameterized over them (a `Simplify` record), so every theorem states its
assumptions on those components explicitly.

Object identity (`Expr::same_as`) is modelled as structural equality:
nodes are immutable values and the visitors only ever compare a mutation
result against the very expression that was passed in, for which structural
equality of the model coincides with the identity check of the source.
-/

namespace HalideAS

/-- Scalar kind tag of an IR type: signed integer, unsigned integer,
floating point, or opaque handle (spec §3: "base scalar kind"). -/
inductive TyCode where
  | int
  | uint
  | float
  | handle
deriving DecidableEq, Repr

/-- An IR type: scalar kind, bit width, and vector lane count (spec §3).
Booleans are represented as `uint` of bit width 1, as in the source. -/
structure Ty where
  code : TyCode
  bits : Nat
  lanes : Nat
deriving DecidableEq, Repr

namespace Ty

/-- Type.is_bool(): unsigned with a single bit. -/
def is_bool (t : Ty) : Bool := t.code == TyCode.uint && t.bits == 1

/-- Type.is_scalar(): one lane. -/
def is_scalar (t : Ty) : Bool := t.lanes == 1

/-- Type.is_int(): signed integer kind. -/
def is_int (t : Ty) : Bool := t.code == TyCode.int

/-- Type.is_uint(): unsigned integer kind. -/
def is_uint (t : Ty) : Bool := t.code == TyCode.uint

/-- Type.is_float(): floating-point kind. -/
def is_float (t : Ty) : Bool := t.code == TyCode.float

/-- Type.is_handle(): opaque handle kind. -/
def is_handle (t : Ty) : Bool := t.code == TyCode.handle

/-- Type.element_of(): the scalar element type of a possibly-vector type. -/
def element_of (t : Ty) : Ty := { t with lanes := 1 }

/-- Type.with_lanes(): the same element type at a given lane count. -/
def with_lanes (t : Ty) (l : Nat) : Ty := { t with lanes := l }

/-- A structurally valid type: at least one bit and at least one lane. -/
def wt_ty (t : Ty) : Bool := 1 ≤ t.bits && 1 ≤ t.lanes

end Ty

/-- The boolean type at a given lane count (UInt(1) in the source). -/
def boolTy (lanes : Nat) : Ty := ⟨TyCode.uint, 1, lanes⟩

/-- Modelled from the spec: `may_simplify`, the type-eligibility gate used
by the visitors (spec §4.5 step 1: a type "is not eligible for
simplification (e.g., an opaque/handle type with no defined arithmetic)").
Integer, unsigned and floating types are eligible; handles are not. -/
def may_simplify (t : Ty) : Bool := t.is_int || t.is_uint || t.is_float

/-- Modelled from the spec: an integer type declared overflow-safe (spec
§4.3: "signed/unsigned fixed-width integers for which the compiler can
guarantee no wraparound"): a signed integer of at least 32 bits, whose
overflow is undefined rather than wrapping. -/
def no_overflow_int (t : Ty) : Bool := t.is_int && 32 ≤ t.bits

/-- Modelled from the spec: a type whose arithmetic is overflow-safe for
rewrite purposes (spec §3 invariants): floating point or a no-overflow
integer. -/
def no_overflow (t : Ty) : Bool := t.is_float || no_overflow_int t

/-- Modelled from the spec: a scalar no-overflow integer type, the guard
of the modulus-remainder disproof (spec §4.5 step 3). -/
def no_overflow_scalar_int (t : Ty) : Bool := t.is_scalar && no_overflow_int t

/-- The IR expression nodes the EQ/NE visitors branch on (spec §3:
immutable tagged nodes; the node kinds used by `Simplify_EQ.cpp`).
Integer immediates are scalar; vector constants are broadcasts of scalar
immediates, as in the source IR. -/
inductive Expr where
  | IntImm (t : Ty) (v : Int)
  | Var (t : Ty) (name : String)
  | Add (a b : Expr)
  | Sub (a b : Expr)
  | Mul (a b : Expr)
  | EQ (a b : Expr)
  | NE (a b : Expr)
  | Not (a : Expr)
  | Or (a b : Expr)
  | And (a b : Expr)
  | Select (c t f : Expr)
  | Broadcast (a : Expr) (lanes : Nat)
deriving DecidableEq, Repr

namespace Expr

/-- The type of an expression, computed from its node kind as in the
source IR (comparisons are boolean with the operand lane count;
`Broadcast` widens its scalar argument). -/
def type : Expr → Ty
  | IntImm t _ => t
  | Var t _ => t
  | Add a _ => a.type
  | Sub a _ => a.type
  | Mul a _ => a.type
  | EQ a _ => boolTy a.type.lanes
  | NE a _ => boolTy a.type.lanes
  | Not a => a.type
  | Or a _ => a.type
  | And a _ => a.type
  | Select _ t _ => t.type
  | Broadcast a l => a.type.with_lanes l

end Expr

/-- Whether an integer is a representable value of the scalar element of
type `t` (spec §3: each variable's declared type range). Non-numeric
kinds place no constraint. -/
def in_range (t : Ty) (v : Int) : Prop :=
  if t.code = TyCode.uint then 0 ≤ v ∧ v < 2 ^ t.bits
  else if t.code = TyCode.int then -(2 ^ (t.bits - 1)) ≤ v ∧ v < 2 ^ (t.bits - 1)
  else True

instance (t : Ty) (v : Int) : Decidable (in_range t v) := by
  unfold in_range; infer_instance

/-- Wrapping of an integer into the representable range of the scalar
element of `t`: unsigned types reduce modulo 2^bits, narrow signed types
wrap two's-complement. Non-integer kinds are untouched. -/
def wrapt (t : Ty) (v : Int) : Int :=
  if t.code = TyCode.uint then v % (2 ^ t.bits : Int)
  else if t.code = TyCode.int then
    (v + 2 ^ (t.bits - 1)) % (2 ^ t.bits : Int) - 2 ^ (t.bits - 1)
  else v

/-- Well-typed expressions (spec §4.1: construction is type-checked;
arithmetic and comparison nodes require both operands to share a type,
select conditions are boolean of matching width, broadcasts widen
scalars, immediates are scalar values within their declared range). -/
def wt : Expr → Bool
  | Expr.IntImm t v =>
      t.wt_ty && t.lanes == 1 && (t.is_int || t.is_uint) && decide (in_range t v)
  | Expr.Var t _ => t.wt_ty
  | Expr.Add a b => wt a && wt b && a.type == b.type
  | Expr.Sub a b => wt a && wt b && a.type == b.type
  | Expr.Mul a b => wt a && wt b && a.type == b.type
  | Expr.EQ a b => wt a && wt b && a.type == b.type
  | Expr.NE a b => wt a && wt b && a.type == b.type
  | Expr.Not a => wt a && a.type.is_bool
  | Expr.Or a b => wt a && wt b && a.type == b.type && a.type.is_bool
  | Expr.And a b => wt a && wt b && a.type == b.type && a.type.is_bool
  | Expr.Select c t f =>
      wt c && wt t && wt f && t.type == f.type && c.type == boolTy t.type.lanes
  | Expr.Broadcast a l => wt a && a.type.is_scalar && 2 ≤ l

/-- An assignment of integer values to variables, per lane (spec §8:
"concrete variable assignments"). -/
def Env : Type := String → Nat → Int

/-- The environment respects the declared type range of every variable
occurring in the expression, on every lane (spec §8: assignments "within
each variable's declared type range"). -/
def env_ok (env : Env) : Expr → Bool
  | Expr.IntImm _ _ => true
  | Expr.Var t n => (List.range t.lanes).all (fun i => decide (in_range t (env n i)))
  | Expr.Add a b => env_ok env a && env_ok env b
  | Expr.Sub a b => env_ok env a && env_ok env b
  | Expr.Mul a b => env_ok env a && env_ok env b
  | Expr.EQ a b => env_ok env a && env_ok env b
  | Expr.NE a b => env_ok env a && env_ok env b
  | Expr.Not a => env_ok env a
  | Expr.Or a b => env_ok env a && env_ok env b
  | Expr.And a b => env_ok env a && env_ok env b
  | Expr.Select c t f => env_ok env c && env_ok env t && env_ok env f
  | Expr.Broadcast a _ => env_ok env a

/-- Truth value as an integer (booleans are UInt(1) values 0/1). -/
def b2i (p : Prop) [Decidable p] : Int := if p then 1 else 0

/-- Lanewise evaluation of an expression at lane `i` (spec §8 `evaluate`):
arithmetic wraps into the operand type's range, comparisons and logical
operators produce 0/1, `Select` picks a branch by lane, `Broadcast`
evaluates its scalar argument. Evaluation of integer-typed well-typed
expressions is total; this is the semantics the equivalence claims
quantify over. -/
def evalL (env : Env) : Nat → Expr → Int
  | _, Expr.IntImm _ v => v
  | i, Expr.Var _ n => env n i
  | i, Expr.Add a b => wrapt a.type (evalL env i a + evalL env i b)
  | i, Expr.Sub a b => wrapt a.type (evalL env i a - evalL env i b)
  | i, Expr.Mul a b => wrapt a.type (evalL env i a * evalL env i b)
  | i, Expr.EQ a b => b2i (evalL env i a = evalL env i b)
  | i, Expr.NE a b => b2i (evalL env i a ≠ evalL env i b)
  | i, Expr.Not a => b2i (evalL env i a = 0)
  | i, Expr.Or a b => b2i (evalL env i a ≠ 0 ∨ evalL env i b ≠ 0)
  | i, Expr.And a b => b2i (evalL env i a ≠ 0 ∧ evalL env i b ≠ 0)
  | i, Expr.Select c t f => if evalL env i c ≠ 0 then evalL env i t else evalL env i f
  | _, Expr.Broadcast a _ => evalL env 0 a

/-- ConstBounds: two independently optional interval facts about an
expression's runtime values (spec §3). -/
structure ConstBounds where
  min_defined : Bool
  max_defined : Bool
  min : Int
  max : Int
deriving DecidableEq, Repr

/-- Bounds carrying no information (both sides undefined). -/
def cb_none : ConstBounds := ⟨false, false, 0, 0⟩

/-- ModulusRemainder: the divisibility fact `value ≡ remainder (mod
modulus)` (spec §3; modulus 1 encodes no information, modulus 0 a known
constant). -/
structure ModulusRemainder where
  modulus : Int
  remainder : Int
deriving DecidableEq, Repr

/-- make_zero: the zero constant of a type; a vector zero is a broadcast
of the scalar zero, as in the source IR helpers. -/
def make_zero (t : Ty) : Expr :=
  if t.lanes = 1 then Expr.IntImm t 0
  else Expr.Broadcast (Expr.IntImm t.element_of 0) t.lanes

/-- const_false: the all-false boolean constant at a given lane count
(UInt(1) zero), as in the source IR helpers. -/
def const_false (lanes : Nat) : Expr := make_zero (boolTy lanes)

/-- A scalar boolean immediate. -/
def const_bool (p : Prop) [Decidable p] : Expr := Expr.IntImm (boolTy 1) (b2i p)

/-- Does the expression recognize as the boolean constant `true`? Used by
the boolean-operand rewrites `x == 1` of the EQ visitor. Modelled from the
spec (§4.4): a constant placeholder matches only a compile-time-constant
node; constants here are scalar immediates. -/
def is_const_one : Expr → Bool
  | Expr.IntImm t v => t.is_bool && v == 1
  | _ => false

/-- Does the expression recognize as the boolean constant `false`? Used by
the boolean-operand rewrite `x == 0` of the EQ visitor. -/
def is_const_zero : Expr → Bool
  | Expr.IntImm t v => t.is_bool && v == 0
  | _ => false

/-- The simplifier context the EQ/NE visitors consume (spec §6): the
recursive entry point `mutate` (second argument: whether the caller
requests bounds, i.e. passes a non-null `ConstBounds *`), and the
modulus-remainder analysis already closed over the visitor's alignment
context (`modulus_remainder(delta, alignment_info)` in the source).
Both live outside `src/`; theorems state assumptions on them explicitly. -/
structure Simplify where
  mutate : Expr → Bool → Expr × ConstBounds
  modulus_remainder : Expr → ModulusRemainder

/-- The first group of the EQ visitor's rewrite table over `delta == 0`
(`Simplify_EQ.cpp` lines 55-58): constant folding `c0 == 0`, and linear
isolation `x + c0 == 0 -> x == fold(-c0)`, `c0 - x == 0 -> x == c0`.
Results of this group are returned without further simplification.
Constant placeholders match scalar immediates; `fold` evaluates in the
matched type, wrapping. -/
def eq_table1 (delta : Expr) : Option Expr :=
  match delta with
  | Expr.IntImm _ c0 => some (const_bool (c0 = 0))
  | Expr.Add x (Expr.IntImm t c0) => some (Expr.EQ x (Expr.IntImm t (wrapt t (-c0))))
  | Expr.Sub (Expr.IntImm t c0) x => some (Expr.EQ x (Expr.IntImm t c0))
  | _ => none

/-- The second group of the EQ visitor's rewrite table over `delta == 0`
(`Simplify_EQ.cpp` lines 61-66), whose results are mutated again:
broadcast lane distribution, the overflow-guarded zero-product rule, and
the four select-distribution variants in their source order (the two
constant-branch variants are guarded by `c0 != 0`; a literal-zero branch
is taken by the corresponding unguarded variant tried first). `lanes` is
the lane count of the EQ node being visited. -/
def eq_table2 (lanes : Nat) (delta : Expr) : Option Expr :=
  match delta with
  | Expr.Broadcast x _ =>
      some (Expr.Broadcast (Expr.EQ x (make_zero x.type)) lanes)
  | Expr.Mul x y =>
      if no_overflow (Expr.Mul x y).type then
        some (Expr.Or (Expr.EQ x (make_zero x.type)) (Expr.EQ y (make_zero y.type)))
      else none
  | Expr.Select x (Expr.IntImm _t c0) y =>
      if c0 = 0 then some (Expr.Or x (Expr.EQ y (make_zero y.type)))
      else some (Expr.And (Expr.Not x) (Expr.EQ y (make_zero y.type)))
  | Expr.Select x y (Expr.IntImm _t c0) =>
      if c0 = 0 then some (Expr.Or (Expr.Not x) (Expr.EQ y (make_zero y.type)))
      else some (Expr.And x (Expr.EQ y (make_zero y.type)))
  | _ => none

/-- Simplify::visit(const EQ *op, ConstBounds *bounds), translated from
`src/Simplify_EQ.cpp` lines 6-79. `op_a`, `op_b` are the operands of the
visited EQ node and `breq` records whether the caller requested bounds. -/
def Simplify.visit_eq (s : Simplify) (op_a op_b : Expr) (breq : Bool) : Expr :=
  if ¬ may_simplify op_a.type then
    -- lines 7-15: type-ineligible pass-through, identity-preserving
    let a := (s.mutate op_a false).1
    let b := (s.mutate op_b false).1
    if a = op_a ∧ b = op_b then Expr.EQ op_a op_b
    else Expr.EQ a b
  else if op_a.type.is_bool then
    -- lines 17-30: boolean operands: x == 1 -> x; x == 0 -> !x (remutated)
    let a := (s.mutate op_a false).1
    let b := (s.mutate op_b false).1
    if is_const_one b then a
    else if is_const_zero b then (s.mutate (Expr.Not a) breq).1
    else if a = op_a ∧ b = op_b then Expr.EQ op_a op_b
    else Expr.EQ a b
  else
    -- line 33: delta = mutate(op->a - op->b, &delta_bounds)
    let md := s.mutate (Expr.Sub op_a op_b) true
    let delta := md.1
    let delta_bounds := md.2
    let lanes := op_a.type.lanes   -- op->type.lanes()
    -- lines 37-43: bounds-based disproof
    if delta_bounds.min_defined ∧ 0 < delta_bounds.min then const_false lanes
    else if delta_bounds.max_defined ∧ delta_bounds.max < 0 then const_false lanes
    -- lines 46-51: modulus-remainder disproof (scalar result const_false())
    else if no_overflow_scalar_int delta.type ∧
        (s.modulus_remainder delta).remainder ≠ 0 then const_false 1
    else
      match eq_table1 delta with
      | some r => r                      -- lines 55-59: returned directly
      | none =>
        match eq_table2 lanes delta with
        | some r => (s.mutate r breq).1  -- lines 61-68: mutated again
        | none =>
          -- lines 70-78: identity-preserving reconstruction
          match delta with
          | Expr.Sub sa sb =>
              if sa = op_a ∧ sb = op_b then Expr.EQ op_a op_b
              else Expr.EQ sa sb
          | _ => Expr.EQ delta (make_zero op_a.type)

/-- Simplify::visit(const NE *op, ConstBounds *bounds), translated from
`src/Simplify_EQ.cpp` lines 82-100: delegate to `not (a == b)` and
preserve identity when the result is a NE node over the same operands. -/
def Simplify.visit_ne (s : Simplify) (op_a op_b : Expr) (breq : Bool) : Expr :=
  if ¬ may_simplify op_a.type then
    -- lines 83-91: type-ineligible pass-through
    let a := (s.mutate op_a false).1
    let b := (s.mutate op_b false).1
    if a = op_a ∧ b = op_b then Expr.NE op_a op_b
    else Expr.NE a b
  else
    -- lines 93-99
    let mutated := (s.mutate (Expr.Not (Expr.EQ op_a op_b)) breq).1
    match mutated with
    | Expr.NE x y => if x = op_a ∧ y = op_b then Expr.NE op_a op_b else Expr.NE x y
    | m => m

/-- Modelled from the spec: the modulus-remainder analysis result for the
expressions a minimal simplifier produces (spec §4.3): a known constant
is congruent to itself with modulus 0; everything else carries the
"no information" fact (modulus 1, remainder 0). -/
def mod_rem0 : Expr → ModulusRemainder
  | Expr.IntImm _ v => ⟨0, v⟩
  | _ => ⟨1, 0⟩

/-- Interval subtraction of two `ConstBounds` (spec §4.2: bounds of
`a - b` are `[min(a)-max(b), max(a)-min(b)]`, undefined sides
propagating). -/
def sub_bounds (ba bb : ConstBounds) : ConstBounds :=
  ⟨ba.min_defined && bb.max_defined, ba.max_defined && bb.min_defined,
    ba.min - bb.max, ba.max - bb.min⟩

/-- Modelled from the spec: a minimal concrete member of the Simplify
visitor family (spec §4.5: "every other node kind ... is implemented as a
structurally analogous visitor"), used to instantiate the EQ/NE visitors
on concrete inputs. It dispatches EQ/NE nodes to the visitors translated
from the source, folds constants with wrapping, applies the sibling
rewrites the spec's examples rely on (`x - x -> 0`, `x - 0 -> x`,
`x + 0 -> x`, boolean constant folding in `not`, `!(x == y) -> x != y`,
`!(x != y) -> x == y`, `!!x -> x`), and reports interval bounds for
immediates and subtractions. Recursion is bounded by explicit fuel. -/
def mutate0 : Nat → Expr → Bool → Expr × ConstBounds
  | 0, e, _ => (e, cb_none)
  | fuel + 1, e, breq =>
    match e with
    | Expr.IntImm t v => (Expr.IntImm t v, ⟨true, true, v, v⟩)
    | Expr.Var t n => (Expr.Var t n, cb_none)
    | Expr.Add a b =>
      let ma := mutate0 fuel a breq
      let mb := mutate0 fuel b breq
      match ma.1, mb.1 with
      | Expr.IntImm t va, Expr.IntImm _ vb => (Expr.IntImm t (wrapt t (va + vb)), cb_none)
      | a', Expr.IntImm _ 0 => (a', ma.2)
      | a', b' => (Expr.Add a' b', cb_none)
    | Expr.Sub a b =>
      let ma := mutate0 fuel a breq
      let mb := mutate0 fuel b breq
      match ma.1, mb.1 with
      | Expr.IntImm t va, Expr.IntImm _ vb =>
          (Expr.IntImm t (wrapt t (va - vb)), ⟨true, true, wrapt t (va - vb), wrapt t (va - vb)⟩)
      | a', Expr.IntImm _ 0 => (a', ma.2)
      | a', b' =>
          if a' = b' then (make_zero a'.type, ⟨true, true, 0, 0⟩)
          else (Expr.Sub a' b', sub_bounds ma.2 mb.2)
    | Expr.Mul a b =>
      let ma := mutate0 fuel a breq
      let mb := mutate0 fuel b breq
      match ma.1, mb.1 with
      | Expr.IntImm t va, Expr.IntImm _ vb => (Expr.IntImm t (wrapt t (va * vb)), cb_none)
      | a', b' => (Expr.Mul a' b', cb_none)
    | Expr.EQ a b => (Simplify.visit_eq ⟨mutate0 fuel, mod_rem0⟩ a b breq, cb_none)
    | Expr.NE a b => (Simplify.visit_ne ⟨mutate0 fuel, mod_rem0⟩ a b breq, cb_none)
    | Expr.Not a =>
      let a' := (mutate0 fuel a false).1
      match a' with
      | Expr.IntImm t v => (Expr.IntImm t (1 - v), cb_none)
      | Expr.EQ x y => (Expr.NE x y, cb_none)
      | Expr.NE x y => (Expr.EQ x y, cb_none)
      | Expr.Not x => (x, cb_none)
      | x => (Expr.Not x, cb_none)
    | Expr.Or a b =>
      let a' := (mutate0 fuel a false).1
      let b' := (mutate0 fuel b false).1
      (Expr.Or a' b', cb_none)
    | Expr.And a b =>
      let a' := (mutate0 fuel a false).1
      let b' := (mutate0 fuel b false).1
      (Expr.And a' b', cb_none)
    | Expr.Select c t f =>
      let c' := (mutate0 fuel c false).1
      let t' := (mutate0 fuel t breq).1
      let f' := (mutate0 fuel f breq).1
      match c' with
      | Expr.IntImm _ v => if v ≠ 0 then (t', cb_none) else (f', cb_none)
      | c'' => if t' = f' then (t', cb_none) else (Expr.Select c'' t' f', cb_none)
    | Expr.Broadcast a l => (Expr.Broadcast (mutate0 fuel a false).1 l, cb_none)

/-- The concrete simplifier instance at a given recursion fuel. -/
def simp0 (fuel : Nat) : Simplify := ⟨mutate0 fuel, mod_rem0⟩

/-- An integer multiple of `P` strictly between `-P` and `P` is zero. -/
lemma dvd_eq_zero_of_bounds {P n : Int} (hd : P ∣ n) (h1 : -P < n) (h2 : n < P) :
    n = 0 := by
  obtain ⟨k, rfl⟩ := hd
  rcases lt_trichotomy k 0 with hk | hk | hk
  · exfalso
    have hk1 : k ≤ -1 := by omega
    nlinarith
  · simp [hk]
  · exfalso
    have hk1 : 1 ≤ k := by omega
    nlinarith

/-- Splitting a power of two at a positive exponent. -/
lemma two_pow_split {b : Nat} (hb : 1 ≤ b) : (2 : Int) ^ b = 2 * 2 ^ (b - 1) := by
  conv_lhs => rw [show b = (b - 1) + 1 by omega]
  rw [pow_succ]
  ring

/-- Unfolded form of `in_range` for signed integer kinds. -/
lemma in_range_int {t : Ty} (h : t.code = TyCode.int) (v : Int) :
    in_range t v ↔ -(2 ^ (t.bits - 1)) ≤ v ∧ v < 2 ^ (t.bits - 1) := by
  unfold in_range
  rw [h, if_neg (by decide), if_pos rfl]

/-- Unfolded form of `in_range` for unsigned integer kinds. -/
lemma in_range_uint {t : Ty} (h : t.code = TyCode.uint) (v : Int) :
    in_range t v ↔ 0 ≤ v ∧ v < 2 ^ t.bits := by
  unfold in_range
  rw [h, if_pos rfl]

/-- Unfolded form of `wrapt` for signed integer kinds. -/
lemma wrapt_int {t : Ty} (h : t.code = TyCode.int) (v : Int) :
    wrapt t v = (v + 2 ^ (t.bits - 1)) % (2 ^ t.bits : Int) - 2 ^ (t.bits - 1) := by
  unfold wrapt
  rw [h, if_neg (by decide), if_pos rfl]

/-- Unfolded form of `wrapt` for unsigned integer kinds. -/
lemma wrapt_uint {t : Ty} (h : t.code = TyCode.uint) (v : Int) :
    wrapt t v = v % (2 ^ t.bits : Int) := by
  unfold wrapt
  rw [h, if_pos rfl]

/-- Wrapping lands in the representable range of integer element kinds. -/
lemma wrapt_in_range {t : Ty} (hc : t.code = TyCode.int ∨ t.code = TyCode.uint)
    (hb : 1 ≤ t.bits) (v : Int) : in_range t (wrapt t v) := by
  have hP : (0 : Int) < 2 ^ t.bits := pow_pos (by norm_num) _
  rcases hc with h | h
  · rw [wrapt_int h, in_range_int h]
    have h1 := Int.emod_nonneg (v + 2 ^ (t.bits - 1)) (ne_of_gt hP)
    have h2 := Int.emod_lt_of_pos (v + 2 ^ (t.bits - 1)) hP
    have h3 := two_pow_split hb
    omega
  · rw [wrapt_uint h, in_range_uint h]
    exact ⟨Int.emod_nonneg v (ne_of_gt hP), Int.emod_lt_of_pos v hP⟩

/-- The wrapped value is congruent to the original modulo 2^bits. -/
lemma wrapt_congr {t : Ty} (hc : t.code = TyCode.int ∨ t.code = TyCode.uint)
    (v : Int) : ((2 : Int) ^ t.bits) ∣ wrapt t v - v := by
  rcases hc with h | h
  · rw [wrapt_int h]
    refine ⟨-((v + 2 ^ (t.bits - 1)) / 2 ^ t.bits), ?_⟩
    rw [Int.emod_def]
    ring
  · rw [wrapt_uint h]
    exact ⟨-(v / 2 ^ t.bits), by rw [Int.emod_def]; ring⟩

/-- Zero is representable in every integer element kind. -/
lemma zero_in_range {t : Ty} (hc : t.code = TyCode.int ∨ t.code = TyCode.uint) :
    in_range t 0 := by
  have hP : (0 : Int) < 2 ^ t.bits := pow_pos (by norm_num) _
  have hH : (0 : Int) < 2 ^ (t.bits - 1) := pow_pos (by norm_num) _
  rcases hc with h | h
  · rw [in_range_int h]; omega
  · rw [in_range_uint h]; omega

/-- Two representable values congruent modulo 2^bits are equal. -/
lemma in_range_eq_of_dvd {t : Ty} (hc : t.code = TyCode.int ∨ t.code = TyCode.uint)
    (hb : 1 ≤ t.bits) {x y : Int} (hx : in_range t x) (hy : in_range t y)
    (hd : ((2 : Int) ^ t.bits) ∣ x - y) : x = y := by
  have h2 := two_pow_split hb
  have hz : x - y = 0 := by
    rcases hc with h | h
    · rw [in_range_int h] at hx hy
      exact dvd_eq_zero_of_bounds hd (by omega) (by omega)
    · rw [in_range_uint h] at hx hy
      exact dvd_eq_zero_of_bounds hd (by omega) (by omega)
  omega

/-- Characterization of wrapping against a representable target value. -/
lemma wrapt_eq_iff {t : Ty} (hc : t.code = TyCode.int ∨ t.code = TyCode.uint)
    (hb : 1 ≤ t.bits) {v w : Int} (hw : in_range t w) :
    wrapt t v = w ↔ ((2 : Int) ^ t.bits) ∣ v - w := by
  constructor
  · intro h
    have hcg := wrapt_congr hc v
    rw [h] at hcg
    have : v - w = -(w - v) := by ring
    rw [this]
    exact dvd_neg.mpr hcg
  · intro h
    have hcg := wrapt_congr hc v
    have : ((2 : Int) ^ t.bits) ∣ wrapt t v - w := by
      have := dvd_add hcg h
      simpa using this
    exact in_range_eq_of_dvd hc hb (wrapt_in_range hc hb v) hw this

/-- Wrapping to zero means divisible by 2^bits. -/
lemma wrapt_eq_zero_iff {t : Ty} (hc : t.code = TyCode.int ∨ t.code = TyCode.uint)
    (hb : 1 ≤ t.bits) (v : Int) :
    wrapt t v = 0 ↔ ((2 : Int) ^ t.bits) ∣ v := by
  have h := @wrapt_eq_iff t hc hb v 0 (zero_in_range hc)
  simpa using h

/-- Wrapping is the identity on representable values. -/
lemma wrapt_id {t : Ty} (hc : t.code = TyCode.int ∨ t.code = TyCode.uint)
    (hb : 1 ≤ t.bits) {v : Int} (hv : in_range t v) : wrapt t v = v :=
  (wrapt_eq_iff hc hb hv).mpr (by simp)

/-- Non-integer element kinds place no range constraint. -/
lemma in_range_other {t : Ty} (h1 : t.code ≠ TyCode.int) (h2 : t.code ≠ TyCode.uint)
    (v : Int) : in_range t v := by
  simp [in_range, h1, h2]

/-- Range constraints ignore the lane count. -/
lemma in_range_with_lanes (t : Ty) (l : Nat) (v : Int) :
    in_range (t.with_lanes l) v ↔ in_range t v := by
  simp [in_range, Ty.with_lanes]

/-- The truth-value integer is zero or one. -/
lemma b2i_mem (p : Prop) [Decidable p] : b2i p = 0 ∨ b2i p = 1 := by
  unfold b2i; split <;> simp

/-- Truth-value integers of equivalent propositions agree. -/
lemma b2i_congr {p q : Prop} [Decidable p] [Decidable q] (h : p ↔ q) :
    b2i p = b2i q := by
  unfold b2i
  split <;> split <;> first | rfl | (exfalso; tauto)

/-- Boolean types are unsigned single-bit. -/
lemma is_bool_parts {t : Ty} (h : t.is_bool = true) :
    t.code = TyCode.uint ∧ t.bits = 1 := by
  simp only [Ty.is_bool, Bool.and_eq_true, beq_iff_eq] at h
  exact h

/-- Truth values are representable in any boolean type. -/
lemma b2i_in_range {t : Ty} (h : t.is_bool = true) (p : Prop) [Decidable p] :
    in_range t (b2i p) := by
  obtain ⟨hc, hb⟩ := is_bool_parts h
  rw [in_range_uint hc, hb]
  rcases b2i_mem p with h1 | h1 <;> rw [h1] <;> norm_num

/-- Well-typed expressions have structurally valid types. -/
lemma wt_ty_of_wt : ∀ e : Expr, wt e = true → e.type.wt_ty = true := by
  intro e
  induction e with
  | IntImm t v =>
      intro h
      simp only [wt, Bool.and_eq_true] at h
      exact h.1.1.1
  | Var t n => intro h; simpa [wt] using h
  | Add a b iha ihb =>
      intro h
      simp only [wt, Bool.and_eq_true] at h
      exact iha h.1.1
  | Sub a b iha ihb =>
      intro h
      simp only [wt, Bool.and_eq_true] at h
      exact iha h.1.1
  | Mul a b iha ihb =>
      intro h
      simp only [wt, Bool.and_eq_true] at h
      exact iha h.1.1
  | EQ a b iha ihb =>
      intro h
      simp only [wt, Bool.and_eq_true] at h
      have := iha h.1.1
      simp only [Ty.wt_ty, Bool.and_eq_true, decide_eq_true_eq] at this ⊢
      simp [Expr.type, boolTy, this.2]
  | NE a b iha ihb =>
      intro h
      simp only [wt, Bool.and_eq_true] at h
      have := iha h.1.1
      simp only [Ty.wt_ty, Bool.and_eq_true, decide_eq_true_eq] at this ⊢
      simp [Expr.type, boolTy, this.2]
  | Not a iha =>
      intro h
      simp only [wt, Bool.and_eq_true] at h
      exact iha h.1
  | Or a b iha ihb =>
      intro h
      simp only [wt, Bool.and_eq_true] at h
      exact iha h.1.1.1
  | And a b iha ihb =>
      intro h
      simp only [wt, Bool.and_eq_true] at h
      exact iha h.1.1.1
  | Select c t f ihc iht ihf =>
      intro h
      simp only [wt, Bool.and_eq_true] at h
      exact iht h.1.1.1.2
  | Broadcast a l iha =>
      intro h
      simp only [wt, Bool.and_eq_true, decide_eq_true_eq] at h
      have := iha h.1.1
      simp only [Ty.wt_ty, Bool.and_eq_true, decide_eq_true_eq] at this ⊢
      exact ⟨by simpa [Expr.type, Ty.with_lanes] using this.1,
        by simp [Expr.type, Ty.with_lanes]; omega⟩

/-- Structurally valid types have at least one bit. -/
lemma bits_pos_of_wt_ty {t : Ty} (h : t.wt_ty = true) : 1 ≤ t.bits := by
  simp only [Ty.wt_ty, Bool.and_eq_true, decide_eq_true_eq] at h
  exact h.1

/-- Evaluation of a well-typed expression on an in-range environment stays
within the declared type range, on every valid lane (spec §3: values of
each type inhabit its range; arithmetic wraps into it). -/
lemma evalL_in_range : ∀ (e : Expr) (env : Env) (i : Nat), wt e = true →
    env_ok env e = true → i < e.type.lanes → in_range e.type (evalL env i e) := by
  intro e
  induction e with
  | IntImm t v =>
      intro env i hw he hi
      simp only [wt, Bool.and_eq_true, decide_eq_true_eq] at hw
      exact hw.2
  | Var t n =>
      intro env i hw he hi
      simp only [env_ok, List.all_eq_true] at he
      exact of_decide_eq_true (he i (List.mem_range.mpr hi))
  | Add a b iha ihb =>
      intro env i hw he hi
      simp only [wt, Bool.and_eq_true] at hw
      have hb1 : 1 ≤ a.type.bits := bits_pos_of_wt_ty (wt_ty_of_wt a hw.1.1)
      show in_range a.type _
      cases h4 : a.type.code with
      | int => exact wrapt_in_range (Or.inl h4) hb1 _
      | uint => exact wrapt_in_range (Or.inr h4) hb1 _
      | float => exact in_range_other (by rw [h4]; decide) (by rw [h4]; decide) _
      | handle => exact in_range_other (by rw [h4]; decide) (by rw [h4]; decide) _
  | Sub a b iha ihb =>
      intro env i hw he hi
      simp only [wt, Bool.and_eq_true] at hw
      have hb1 : 1 ≤ a.type.bits := bits_pos_of_wt_ty (wt_ty_of_wt a hw.1.1)
      show in_range a.type _
      cases h4 : a.type.code with
      | int => exact wrapt_in_range (Or.inl h4) hb1 _
      | uint => exact wrapt_in_range (Or.inr h4) hb1 _
      | float => exact in_range_other (by rw [h4]; decide) (by rw [h4]; decide) _
      | handle => exact in_range_other (by rw [h4]; decide) (by rw [h4]; decide) _
  | Mul a b iha ihb =>
      intro env i hw he hi
      simp only [wt, Bool.and_eq_true] at hw
      have hb1 : 1 ≤ a.type.bits := bits_pos_of_wt_ty (wt_ty_of_wt a hw.1.1)
      show in_range a.type _
      cases h4 : a.type.code with
      | int => exact wrapt_in_range (Or.inl h4) hb1 _
      | uint => exact wrapt_in_range (Or.inr h4) hb1 _
      | float => exact in_range_other (by rw [h4]; decide) (by rw [h4]; decide) _
      | handle => exact in_range_other (by rw [h4]; decide) (by rw [h4]; decide) _
  | EQ a b iha ihb =>
      intro env i hw he hi
      exact b2i_in_range (by simp [Expr.type, boolTy, Ty.is_bool]) _
  | NE a b iha ihb =>
      intro env i hw he hi
      exact b2i_in_range (by simp [Expr.type, boolTy, Ty.is_bool]) _
  | Not a iha =>
      intro env i hw he hi
      simp only [wt, Bool.and_eq_true] at hw
      exact b2i_in_range hw.2 _
  | Or a b iha ihb =>
      intro env i hw he hi
      simp only [wt, Bool.and_eq_true] at hw
      exact b2i_in_range hw.2 _
  | And a b iha ihb =>
      intro env i hw he hi
      simp only [wt, Bool.and_eq_true] at hw
      exact b2i_in_range hw.2 _
  | Select c t f ihc iht ihf =>
      intro env i hw he hi
      simp only [wt, Bool.and_eq_true, beq_iff_eq] at hw
      simp only [env_ok, Bool.and_eq_true] at he
      show in_range t.type _
      simp only [evalL]
      split
      · exact iht env i hw.1.1.1.2 he.1.2 hi
      · have hi2 : i < f.type.lanes := by
          rw [← hw.1.2]
          exact hi
        have h5 := ihf env i hw.1.1.2 he.2 hi2
        rw [hw.1.2]
        exact h5
  | Broadcast a l iha =>
      intro env i hw he hi
      simp only [wt, Bool.and_eq_true, decide_eq_true_eq] at hw
      show in_range (a.type.with_lanes l) _
      rw [in_range_with_lanes]
      have hs : a.type.lanes = 1 := by
        have := hw.1.2
        simp only [Ty.is_scalar, beq_iff_eq] at this
        exact this
      exact iha env 0 hw.1.1 he (by omega)

/-- make_zero produces a node of the requested type. -/
lemma make_zero_type (t : Ty) : (make_zero t).type = t := by
  unfold make_zero
  split
  · rfl
  · show t.element_of.with_lanes t.lanes = t
    cases t
    rfl

/-- make_zero evaluates to zero on every lane. -/
lemma evalL_make_zero (env : Env) (i : Nat) (t : Ty) :
    evalL env i (make_zero t) = 0 := by
  unfold make_zero
  split <;> rfl

/-- make_zero of a scalar integer type is well-typed. -/
lemma wt_make_zero_scalar {t : Ty} (hc : t.code = TyCode.int ∨ t.code = TyCode.uint)
    (hb : 1 ≤ t.bits) (hl : t.lanes = 1) : wt (make_zero t) = true := by
  unfold make_zero
  rw [if_pos hl]
  simp only [wt, Bool.and_eq_true, decide_eq_true_eq, beq_iff_eq]
  refine ⟨⟨⟨?_, hl⟩, ?_⟩, zero_in_range hc⟩
  · simp only [Ty.wt_ty, Bool.and_eq_true, decide_eq_true_eq]
    omega
  · rcases hc with h | h <;> simp [Ty.is_int, Ty.is_uint, h]

/-- const_false has boolean type at the requested lane count. -/
lemma const_false_type (lanes : Nat) : (const_false lanes).type = boolTy lanes :=
  make_zero_type _

/-- const_false evaluates to zero (false) on every lane. -/
lemma evalL_const_false (env : Env) (i : Nat) (lanes : Nat) :
    evalL env i (const_false lanes) = 0 :=
  evalL_make_zero env i _

/-- The soundness contract the EQ/NE visitors assume of the recursive
simplifier they are handed (spec §4.2, §6, §8): mutation preserves the
operand's type, well-typedness, the variables' range discipline and the
lanewise value, and any bounds it reports enclose every achievable value
of the mutated expression. -/
structure MutateOK (m : Expr → Bool → Expr × ConstBounds) : Prop where
  type_eq : ∀ e req, ((m e req).1).type = e.type
  wt_pres : ∀ e req, wt e = true → wt (m e req).1 = true
  env_pres : ∀ env e req, env_ok env e = true → env_ok env (m e req).1 = true
  eval_eq : ∀ (env : Env) (i : Nat) e req, wt e = true → env_ok env e = true →
    i < e.type.lanes → evalL env i (m e req).1 = evalL env i e
  bmin : ∀ (env : Env) (i : Nat) e req, wt e = true → env_ok env e = true →
    i < e.type.lanes → (m e req).2.min_defined = true →
    (m e req).2.min ≤ evalL env i e
  bmax : ∀ (env : Env) (i : Nat) e req, wt e = true → env_ok env e = true →
    i < e.type.lanes → (m e req).2.max_defined = true →
    evalL env i e ≤ (m e req).2.max

/-- Branch characterization: the type-ineligible arm of the EQ visitor
(`Simplify_EQ.cpp` lines 7-15). -/
lemma visit_eq_ineligible (s : Simplify) (op_a op_b : Expr) (breq : Bool)
    (h1 : may_simplify op_a.type = false) :
    s.visit_eq op_a op_b breq =
      (if (s.mutate op_a false).1 = op_a ∧ (s.mutate op_b false).1 = op_b
        then Expr.EQ op_a op_b
        else Expr.EQ (s.mutate op_a false).1 (s.mutate op_b false).1) := by
  unfold Simplify.visit_eq
  rw [h1]
  simp

/-- Branch characterization: the boolean-operand arm of the EQ visitor
(`Simplify_EQ.cpp` lines 17-30). -/
lemma visit_eq_bool (s : Simplify) (op_a op_b : Expr) (breq : Bool)
    (h1 : may_simplify op_a.type = true) (h2 : op_a.type.is_bool = true) :
    s.visit_eq op_a op_b breq =
      (if is_const_one (s.mutate op_b false).1 then (s.mutate op_a false).1
        else if is_const_zero (s.mutate op_b false).1 then
          (s.mutate (Expr.Not (s.mutate op_a false).1) breq).1
        else if (s.mutate op_a false).1 = op_a ∧ (s.mutate op_b false).1 = op_b
          then Expr.EQ op_a op_b
        else Expr.EQ (s.mutate op_a false).1 (s.mutate op_b false).1) := by
  unfold Simplify.visit_eq
  rw [h1, h2]
  simp

/-- Branch characterization: the general numeric arm of the EQ visitor
(`Simplify_EQ.cpp` lines 32-78). -/
lemma visit_eq_numeric (s : Simplify) (op_a op_b : Expr) (breq : Bool)
    (h1 : may_simplify op_a.type = true) (h2 : op_a.type.is_bool = false) :
    s.visit_eq op_a op_b breq =
      (if (s.mutate (Expr.Sub op_a op_b) true).2.min_defined = true ∧
          0 < (s.mutate (Expr.Sub op_a op_b) true).2.min then
        const_false op_a.type.lanes
      else if (s.mutate (Expr.Sub op_a op_b) true).2.max_defined = true ∧
          (s.mutate (Expr.Sub op_a op_b) true).2.max < 0 then
        const_false op_a.type.lanes
      else if no_overflow_scalar_int ((s.mutate (Expr.Sub op_a op_b) true).1).type = true ∧
          (s.modulus_remainder (s.mutate (Expr.Sub op_a op_b) true).1).remainder ≠ 0 then
        const_false 1
      else
        match eq_table1 (s.mutate (Expr.Sub op_a op_b) true).1 with
        | some r => r
        | none =>
          match eq_table2 op_a.type.lanes (s.mutate (Expr.Sub op_a op_b) true).1 with
          | some r => (s.mutate r breq).1
          | none =>
            match (s.mutate (Expr.Sub op_a op_b) true).1 with
            | Expr.Sub sa sb =>
                if sa = op_a ∧ sb = op_b then Expr.EQ op_a op_b else Expr.EQ sa sb
            | _ => Expr.EQ (s.mutate (Expr.Sub op_a op_b) true).1
                (make_zero op_a.type)) := by
  unfold Simplify.visit_eq
  rw [h1, h2]
  simp

/-- Branch characterization: the type-ineligible arm of the NE visitor
(`Simplify_EQ.cpp` lines 83-91). -/
lemma visit_ne_ineligible (s : Simplify) (op_a op_b : Expr) (breq : Bool)
    (h1 : may_simplify op_a.type = false) :
    s.visit_ne op_a op_b breq =
      (if (s.mutate op_a false).1 = op_a ∧ (s.mutate op_b false).1 = op_b
        then Expr.NE op_a op_b
        else Expr.NE (s.mutate op_a false).1 (s.mutate op_b false).1) := by
  unfold Simplify.visit_ne
  rw [h1]
  simp

/-- Branch characterization: the delegation arm of the NE visitor
(`Simplify_EQ.cpp` lines 93-99). -/
lemma visit_ne_delegate (s : Simplify) (op_a op_b : Expr) (breq : Bool)
    (h1 : may_simplify op_a.type = true) :
    s.visit_ne op_a op_b breq =
      (match (s.mutate (Expr.Not (Expr.EQ op_a op_b)) breq).1 with
        | Expr.NE x y =>
            if x = op_a ∧ y = op_b then Expr.NE op_a op_b else Expr.NE x y
        | m => m) := by
  unfold Simplify.visit_ne
  rw [h1]
  simp

/-- Stepping: bounds disproof by a positive minimum (lines 37-39). -/
lemma visit_eq_min_fold (s : Simplify) (op_a op_b : Expr) (breq : Bool)
    (h1 : may_simplify op_a.type = true) (h2 : op_a.type.is_bool = false)
    (h3 : (s.mutate (Expr.Sub op_a op_b) true).2.min_defined = true ∧
      0 < (s.mutate (Expr.Sub op_a op_b) true).2.min) :
    s.visit_eq op_a op_b breq = const_false op_a.type.lanes := by
  rw [visit_eq_numeric s op_a op_b breq h1 h2, if_pos h3]

/-- Stepping: bounds disproof by a negative maximum (lines 41-43). -/
lemma visit_eq_max_fold (s : Simplify) (op_a op_b : Expr) (breq : Bool)
    (h1 : may_simplify op_a.type = true) (h2 : op_a.type.is_bool = false)
    (h3 : ¬((s.mutate (Expr.Sub op_a op_b) true).2.min_defined = true ∧
      0 < (s.mutate (Expr.Sub op_a op_b) true).2.min))
    (h4 : (s.mutate (Expr.Sub op_a op_b) true).2.max_defined = true ∧
      (s.mutate (Expr.Sub op_a op_b) true).2.max < 0) :
    s.visit_eq op_a op_b breq = const_false op_a.type.lanes := by
  rw [visit_eq_numeric s op_a op_b breq h1 h2, if_neg h3, if_pos h4]

/-- Stepping: modulus-remainder disproof (lines 46-51). -/
lemma visit_eq_mod_fold (s : Simplify) (op_a op_b : Expr) (breq : Bool)
    (h1 : may_simplify op_a.type = true) (h2 : op_a.type.is_bool = false)
    (h3 : ¬((s.mutate (Expr.Sub op_a op_b) true).2.min_defined = true ∧
      0 < (s.mutate (Expr.Sub op_a op_b) true).2.min))
    (h4 : ¬((s.mutate (Expr.Sub op_a op_b) true).2.max_defined = true ∧
      (s.mutate (Expr.Sub op_a op_b) true).2.max < 0))
    (h5 : no_overflow_scalar_int ((s.mutate (Expr.Sub op_a op_b) true).1).type = true ∧
      (s.modulus_remainder (s.mutate (Expr.Sub op_a op_b) true).1).remainder ≠ 0) :
    s.visit_eq op_a op_b breq = const_false 1 := by
  rw [visit_eq_numeric s op_a op_b breq h1 h2, if_neg h3, if_neg h4, if_pos h5]

/-- Stepping: the rewrite-table and fallback stage (lines 53-78), reached
when both disproof attempts fail. -/
lemma visit_eq_tables (s : Simplify) (op_a op_b : Expr) (breq : Bool)
    (h1 : may_simplify op_a.type = true) (h2 : op_a.type.is_bool = false)
    (h3 : ¬((s.mutate (Expr.Sub op_a op_b) true).2.min_defined = true ∧
      0 < (s.mutate (Expr.Sub op_a op_b) true).2.min))
    (h4 : ¬((s.mutate (Expr.Sub op_a op_b) true).2.max_defined = true ∧
      (s.mutate (Expr.Sub op_a op_b) true).2.max < 0))
    (h5 : ¬(no_overflow_scalar_int ((s.mutate (Expr.Sub op_a op_b) true).1).type = true ∧
      (s.modulus_remainder (s.mutate (Expr.Sub op_a op_b) true).1).remainder ≠ 0)) :
    s.visit_eq op_a op_b breq =
      (match eq_table1 (s.mutate (Expr.Sub op_a op_b) true).1 with
        | some r => r
        | none =>
          match eq_table2 op_a.type.lanes (s.mutate (Expr.Sub op_a op_b) true).1 with
          | some r => (s.mutate r breq).1
          | none =>
            match (s.mutate (Expr.Sub op_a op_b) true).1 with
            | Expr.Sub sa sb =>
                if sa = op_a ∧ sb = op_b then Expr.EQ op_a op_b else Expr.EQ sa sb
            | _ => Expr.EQ (s.mutate (Expr.Sub op_a op_b) true).1
                (make_zero op_a.type)) := by
  rw [visit_eq_numeric s op_a op_b breq h1 h2, if_neg h3, if_neg h4, if_neg h5]

/-- A recognized boolean `true` immediate evaluates to one. -/
lemma evalL_of_is_const_one {e : Expr} (h : is_const_one e = true) (env : Env)
    (i : Nat) : evalL env i e = 1 := by
  cases e <;> simp_all [is_const_one, evalL]

/-- A recognized boolean `false` immediate evaluates to zero. -/
lemma evalL_of_is_const_zero {e : Expr} (h : is_const_zero e = true) (env : Env)
    (i : Nat) : evalL env i e = 0 := by
  cases e <;> simp_all [is_const_zero, evalL]

/-- A wrapped difference of representable values vanishes exactly on
equal values: the semantic heart of the `delta == 0` reduction. -/
lemma wrap_diff_zero_iff {A : Ty} (hc2 : A.code = TyCode.int ∨ A.code = TyCode.uint)
    (hbits : 1 ≤ A.bits) {x y : Int} (hx : in_range A x) (hy : in_range A y) :
    wrapt A (x - y) = 0 ↔ x = y := by
  rw [wrapt_eq_zero_iff hc2 hbits]
  constructor
  · exact fun h => in_range_eq_of_dvd hc2 hbits hx hy h
  · intro h
    rw [h]
    simp

/-- The truth-value integer is nonzero exactly when the proposition holds. -/
lemma b2i_ne_zero_iff (p : Prop) [Decidable p] : b2i p ≠ 0 ↔ p := by
  unfold b2i
  split <;> simp_all

/-- make_zero contains no variables, so any environment is admissible. -/
lemma env_ok_make_zero (env : Env) (t : Ty) : env_ok env (make_zero t) = true := by
  unfold make_zero
  split <;> rfl

/-- Sub-32-bit signed and all unsigned integer types are wrapping, never
overflow-safe. -/
lemma no_overflow_of_small {A : Ty}
    (hsmall : A.code = TyCode.uint ∨ (A.code = TyCode.int ∧ A.bits < 32)) :
    no_overflow A = false := by
  rcases hsmall with h | ⟨h, h5⟩
  · simp [no_overflow, no_overflow_int, Ty.is_int, Ty.is_float, h]
  · simp [no_overflow, no_overflow_int, Ty.is_int, Ty.is_float, h]
    omega

/-- Sub-32-bit signed and all unsigned integer types fail the
modulus-disproof guard. -/
lemma no_overflow_scalar_int_of_small {A : Ty}
    (hsmall : A.code = TyCode.uint ∨ (A.code = TyCode.int ∧ A.bits < 32)) :
    no_overflow_scalar_int A = false := by
  rcases hsmall with h | ⟨h, h5⟩
  · simp [no_overflow_scalar_int, no_overflow_int, Ty.is_int, h]
  · simp [no_overflow_scalar_int, no_overflow_int, Ty.is_int, h]
    omega

/-- The fallback `delta == make_zero(...)` node evaluates like the
original comparison whenever `delta` evaluates like the difference. -/
lemma eq_fallback_eval (a b d : Expr) (env : Env)
    (hc2 : a.type.code = TyCode.int ∨ a.type.code = TyCode.uint)
    (hbits : 1 ≤ a.type.bits)
    (hwa : wt a = true) (hwb : wt b = true) (hty : a.type = b.type)
    (hea : env_ok env a = true) (heb : env_ok env b = true)
    (hvd : ∀ j, j < a.type.lanes →
      evalL env j d = wrapt a.type (evalL env j a - evalL env j b))
    (i : Nat) (hi : i < a.type.lanes) :
    evalL env i (Expr.EQ d (make_zero a.type)) = evalL env i (Expr.EQ a b) := by
  have hra := evalL_in_range a env i hwa hea hi
  have hrb := evalL_in_range b env i hwb heb (by rw [← hty]; exact hi)
  rw [← hty] at hrb
  simp only [evalL, evalL_make_zero]
  refine b2i_congr ?_
  rw [hvd i hi]
  exact wrap_diff_zero_iff hc2 hbits hra hrb

/-- The identity-preserving `Sub` reconstruction evaluates like the
original comparison. -/
lemma sub_fallback_eval (a b sa sb : Expr) (env : Env)
    (hc2 : a.type.code = TyCode.int ∨ a.type.code = TyCode.uint)
    (hbits : 1 ≤ a.type.bits)
    (hwa : wt a = true) (hwb : wt b = true) (hty : a.type = b.type)
    (hea : env_ok env a = true) (heb : env_ok env b = true)
    (hdt : (Expr.Sub sa sb).type = a.type)
    (hwd : wt (Expr.Sub sa sb) = true)
    (hed : env_ok env (Expr.Sub sa sb) = true)
    (hvd : ∀ j, j < a.type.lanes →
      evalL env j (Expr.Sub sa sb) = wrapt a.type (evalL env j a - evalL env j b))
    (i : Nat) (hi : i < a.type.lanes) :
    evalL env i (if sa = a ∧ sb = b then Expr.EQ a b else Expr.EQ sa sb)
      = evalL env i (Expr.EQ a b) := by
  by_cases hid : sa = a ∧ sb = b
  · rw [if_pos hid]
  · rw [if_neg hid]
    simp only [wt, Bool.and_eq_true, beq_iff_eq] at hwd
    simp only [env_ok, Bool.and_eq_true] at hed
    have hsa : sa.type = a.type := hdt
    have hsb : sb.type = a.type := by rw [← hwd.2]; exact hsa
    have hisa : i < sa.type.lanes := by rw [hsa]; exact hi
    have hisb : i < sb.type.lanes := by rw [hsb]; exact hi
    have hrsa := evalL_in_range sa env i hwd.1.1 hed.1 hisa
    have hrsb := evalL_in_range sb env i hwd.1.2 hed.2 hisb
    rw [hsa] at hrsa
    rw [hsb] at hrsb
    have hra := evalL_in_range a env i hwa hea hi
    have hrb := evalL_in_range b env i hwb heb (by rw [← hty]; exact hi)
    rw [← hty] at hrb
    have hsubv : wrapt sa.type (evalL env i sa - evalL env i sb)
        = wrapt a.type (evalL env i a - evalL env i b) := by
      have h0 := hvd i hi
      simp only [evalL] at h0
      exact h0
    rw [hsa] at hsubv
    simp only [evalL]
    refine b2i_congr ?_
    rw [← wrap_diff_zero_iff hc2 hbits hrsa hrsb,
      ← wrap_diff_zero_iff hc2 hbits hra hrb, hsubv]

/-- The broadcast-distribution rewrite evaluates like the original
comparison after re-simplification. -/
lemma bcast_rule_eval (s : Simplify) (hm : MutateOK s.mutate) (env : Env)
    (a b X : Expr) (l : Nat) (req : Bool)
    (hc2 : a.type.code = TyCode.int ∨ a.type.code = TyCode.uint)
    (hbits : 1 ≤ a.type.bits)
    (hwa : wt a = true) (hwb : wt b = true) (hty : a.type = b.type)
    (hea : env_ok env a = true) (heb : env_ok env b = true)
    (hdt : (Expr.Broadcast X l).type = a.type)
    (hwd : wt (Expr.Broadcast X l) = true)
    (hed : env_ok env (Expr.Broadcast X l) = true)
    (hvd : ∀ j, j < a.type.lanes →
      evalL env j (Expr.Broadcast X l) = wrapt a.type (evalL env j a - evalL env j b))
    (i : Nat) (hi : i < a.type.lanes) :
    evalL env i
        ((s.mutate (Expr.Broadcast (Expr.EQ X (make_zero X.type)) a.type.lanes) req).1)
      = evalL env i (Expr.EQ a b) := by
  simp only [wt, Bool.and_eq_true, decide_eq_true_eq] at hwd
  obtain ⟨⟨hwX, hXs⟩, hl2⟩ := hwd
  have hXl : X.type.lanes = 1 := by
    simpa [Ty.is_scalar] using hXs
  have hXc : X.type.code = a.type.code := by
    rw [← hdt]
    rfl
  have hXb : X.type.bits = a.type.bits := by
    rw [← hdt]
    rfl
  have hal : a.type.lanes = l := by
    rw [← hdt]
    rfl
  have hc2X : X.type.code = TyCode.int ∨ X.type.code = TyCode.uint := by
    rw [hXc]
    exact hc2
  have hwz : wt (make_zero X.type) = true :=
    wt_make_zero_scalar hc2X (by rw [hXb]; exact hbits) hXl
  have hwr : wt (Expr.Broadcast (Expr.EQ X (make_zero X.type)) a.type.lanes) = true := by
    simp only [wt, Bool.and_eq_true, decide_eq_true_eq, beq_iff_eq]
    refine ⟨⟨⟨⟨hwX, hwz⟩, (make_zero_type X.type).symm⟩, ?_⟩, by omega⟩
    simp [Expr.type, Ty.is_scalar, boolTy, hXl]
  have her : env_ok env (Expr.Broadcast (Expr.EQ X (make_zero X.type)) a.type.lanes)
      = true := by
    simp only [env_ok, Bool.and_eq_true]
    exact ⟨hed, env_ok_make_zero env X.type⟩
  have hir : i < (Expr.Broadcast (Expr.EQ X (make_zero X.type)) a.type.lanes).type.lanes := by
    show i < a.type.lanes
    exact hi
  have heval := hm.eval_eq env i _ req hwr her hir
  rw [heval]
  have h0 : evalL env 0 X = wrapt a.type (evalL env i a - evalL env i b) := hvd i hi
  have hra := evalL_in_range a env i hwa hea hi
  have hrb := evalL_in_range b env i hwb heb (by rw [← hty]; exact hi)
  rw [← hty] at hrb
  simp only [evalL, evalL_make_zero]
  refine b2i_congr ?_
  rw [h0]
  exact wrap_diff_zero_iff hc2 hbits hra hrb

/-- The select-distribution rewrite with a zero constant in the true
branch evaluates like the original comparison after re-simplification. -/
lemma sel_czero_left_eval (s : Simplify) (hm : MutateOK s.mutate) (env : Env)
    (a b X Y : Expr) (t0 : Ty) (c0 : Int) (req : Bool)
    (hc2 : a.type.code = TyCode.int ∨ a.type.code = TyCode.uint)
    (hbits : 1 ≤ a.type.bits)
    (hwa : wt a = true) (hwb : wt b = true) (hty : a.type = b.type)
    (hea : env_ok env a = true) (heb : env_ok env b = true)
    (hdt : (Expr.Select X (Expr.IntImm t0 c0) Y).type = a.type)
    (hwd : wt (Expr.Select X (Expr.IntImm t0 c0) Y) = true)
    (hed : env_ok env (Expr.Select X (Expr.IntImm t0 c0) Y) = true)
    (hvd : ∀ j, j < a.type.lanes →
      evalL env j (Expr.Select X (Expr.IntImm t0 c0) Y)
        = wrapt a.type (evalL env j a - evalL env j b))
    (i : Nat) (hi : i < a.type.lanes) (hc0 : c0 = 0) :
    evalL env i ((s.mutate (Expr.Or X (Expr.EQ Y (make_zero Y.type))) req).1)
      = evalL env i (Expr.EQ a b) := by
  simp only [wt, Bool.and_eq_true, beq_iff_eq, decide_eq_true_eq] at hwd
  obtain ⟨⟨⟨⟨hwX, _hwImm⟩, hwY⟩, htY⟩, htX⟩ := hwd
  simp only [Expr.type] at htX htY
  simp only [env_ok, Bool.and_eq_true] at hed
  obtain ⟨⟨heX, _⟩, heY⟩ := hed
  have hta : t0 = a.type := hdt
  have hl0 : t0.lanes = 1 := _hwImm.1.1.2
  have hYa : Y.type = a.type := by rw [← htY]; exact hta
  have hl1 : a.type.lanes = 1 := by rw [← hta]; exact hl0
  have hi1 : i < 1 := by omega
  have hc2Y : Y.type.code = TyCode.int ∨ Y.type.code = TyCode.uint := by
    rw [hYa]; exact hc2
  have hwz : wt (make_zero Y.type) = true :=
    wt_make_zero_scalar hc2Y (by rw [hYa]; exact hbits) (by rw [hYa]; exact hl1)
  have hwr : wt (Expr.Or X (Expr.EQ Y (make_zero Y.type))) = true := by
    simp only [wt, Bool.and_eq_true, beq_iff_eq]
    refine ⟨⟨⟨hwX, ⟨⟨hwY, hwz⟩, (make_zero_type Y.type).symm⟩⟩, ?_⟩, ?_⟩
    · show X.type = boolTy Y.type.lanes
      rw [htX, hl0, hYa, hl1]
    · rw [htX, hl0]
      rfl
  have her : env_ok env (Expr.Or X (Expr.EQ Y (make_zero Y.type))) = true := by
    simp only [env_ok, Bool.and_eq_true]
    exact ⟨heX, heY, env_ok_make_zero env Y.type⟩
  have hir : i < (Expr.Or X (Expr.EQ Y (make_zero Y.type))).type.lanes := by
    show i < X.type.lanes
    rw [htX, hl0]
    exact hi1
  have heval := hm.eval_eq env i _ req hwr her hir
  rw [heval]
  have hra := evalL_in_range a env i hwa hea hi
  have hrb := evalL_in_range b env i hwb heb (by rw [← hty]; exact hi)
  rw [← hty] at hrb
  have hkey := wrap_diff_zero_iff hc2 hbits hra hrb
  have h0 := hvd i hi
  simp only [evalL] at h0
  simp only [evalL, evalL_make_zero]
  by_cases hX : evalL env i X ≠ 0
  · rw [if_pos hX] at h0
    have hvab : evalL env i a = evalL env i b := by
      rw [← hkey, ← h0, hc0]
    unfold b2i
    rw [if_pos (Or.inl hX), if_pos hvab]
  · have hX0 : evalL env i X = 0 := not_not.mp hX
    rw [if_neg hX] at h0
    have hYiff : (evalL env i Y = 0) ↔ (evalL env i a = evalL env i b) := by
      rw [h0]; exact hkey
    refine b2i_congr ?_
    constructor
    · rintro (h | h)
      · exact absurd hX0 h
      · exact hYiff.mp (b2i_ne_zero_iff _ |>.mp h)
    · intro h
      exact Or.inr ((b2i_ne_zero_iff _).mpr (hYiff.mpr h))

/-- The select-distribution rewrite with a nonzero constant in the true
branch evaluates like the original comparison after re-simplification. -/
lemma sel_cnz_left_eval (s : Simplify) (hm : MutateOK s.mutate) (env : Env)
    (a b X Y : Expr) (t0 : Ty) (c0 : Int) (req : Bool)
    (hc2 : a.type.code = TyCode.int ∨ a.type.code = TyCode.uint)
    (hbits : 1 ≤ a.type.bits)
    (hwa : wt a = true) (hwb : wt b = true) (hty : a.type = b.type)
    (hea : env_ok env a = true) (heb : env_ok env b = true)
    (hdt : (Expr.Select X (Expr.IntImm t0 c0) Y).type = a.type)
    (hwd : wt (Expr.Select X (Expr.IntImm t0 c0) Y) = true)
    (hed : env_ok env (Expr.Select X (Expr.IntImm t0 c0) Y) = true)
    (hvd : ∀ j, j < a.type.lanes →
      evalL env j (Expr.Select X (Expr.IntImm t0 c0) Y)
        = wrapt a.type (evalL env j a - evalL env j b))
    (i : Nat) (hi : i < a.type.lanes) (hc0 : c0 ≠ 0) :
    evalL env i
        ((s.mutate (Expr.And (Expr.Not X) (Expr.EQ Y (make_zero Y.type))) req).1)
      = evalL env i (Expr.EQ a b) := by
  simp only [wt, Bool.and_eq_true, beq_iff_eq, decide_eq_true_eq] at hwd
  obtain ⟨⟨⟨⟨hwX, _hwImm⟩, hwY⟩, htY⟩, htX⟩ := hwd
  simp only [Expr.type] at htX htY
  simp only [env_ok, Bool.and_eq_true] at hed
  obtain ⟨⟨heX, _⟩, heY⟩ := hed
  have hta : t0 = a.type := hdt
  have hl0 : t0.lanes = 1 := _hwImm.1.1.2
  have hYa : Y.type = a.type := by rw [← htY]; exact hta
  have hl1 : a.type.lanes = 1 := by rw [← hta]; exact hl0
  have hi1 : i < 1 := by omega
  have hc2Y : Y.type.code = TyCode.int ∨ Y.type.code = TyCode.uint := by
    rw [hYa]; exact hc2
  have hwz : wt (make_zero Y.type) = true :=
    wt_make_zero_scalar hc2Y (by rw [hYa]; exact hbits) (by rw [hYa]; exact hl1)
  have hbX : X.type.is_bool = true := by
    rw [htX, hl0]
    rfl
  have hwr : wt (Expr.And (Expr.Not X) (Expr.EQ Y (make_zero Y.type))) = true := by
    simp only [wt, Bool.and_eq_true, beq_iff_eq]
    refine ⟨⟨⟨⟨hwX, hbX⟩, ⟨⟨hwY, hwz⟩, (make_zero_type Y.type).symm⟩⟩, ?_⟩, ?_⟩
    · show X.type = boolTy Y.type.lanes
      rw [htX, hl0, hYa, hl1]
    · show X.type.is_bool = true
      exact hbX
  have her : env_ok env (Expr.And (Expr.Not X) (Expr.EQ Y (make_zero Y.type)))
      = true := by
    simp only [env_ok, Bool.and_eq_true]
    exact ⟨heX, heY, env_ok_make_zero env Y.type⟩
  have hir : i < (Expr.And (Expr.Not X) (Expr.EQ Y (make_zero Y.type))).type.lanes := by
    show i < X.type.lanes
    rw [htX, hl0]
    exact hi1
  have heval := hm.eval_eq env i _ req hwr her hir
  rw [heval]
  have hra := evalL_in_range a env i hwa hea hi
  have hrb := evalL_in_range b env i hwb heb (by rw [← hty]; exact hi)
  rw [← hty] at hrb
  have hkey := wrap_diff_zero_iff hc2 hbits hra hrb
  have h0 := hvd i hi
  simp only [evalL] at h0
  simp only [evalL, evalL_make_zero]
  by_cases hX : evalL env i X ≠ 0
  · rw [if_pos hX] at h0
    have hvab : ¬(evalL env i a = evalL env i b) := by
      intro h
      rw [← hkey] at h
      rw [← h0] at h
      exact hc0 h
    refine b2i_congr ?_
    constructor
    · rintro ⟨h1, _⟩
      exact absurd ((b2i_ne_zero_iff _).mp h1) hX
    · intro h
      exact absurd h hvab
  · have hX0 : evalL env i X = 0 := not_not.mp hX
    rw [if_neg hX] at h0
    have hYiff : (evalL env i Y = 0) ↔ (evalL env i a = evalL env i b) := by
      rw [h0]; exact hkey
    refine b2i_congr ?_
    constructor
    · rintro ⟨_, h2⟩
      exact hYiff.mp ((b2i_ne_zero_iff _).mp h2)
    · intro h
      exact ⟨(b2i_ne_zero_iff _).mpr hX0, (b2i_ne_zero_iff _).mpr (hYiff.mpr h)⟩

/-- The select-distribution rewrite with a zero constant in the false
branch evaluates like the original comparison after re-simplification. -/
lemma sel_czero_right_eval (s : Simplify) (hm : MutateOK s.mutate) (env : Env)
    (a b X Y : Expr) (t0 : Ty) (c0 : Int) (req : Bool)
    (hc2 : a.type.code = TyCode.int ∨ a.type.code = TyCode.uint)
    (hbits : 1 ≤ a.type.bits)
    (hwa : wt a = true) (hwb : wt b = true) (hty : a.type = b.type)
    (hea : env_ok env a = true) (heb : env_ok env b = true)
    (hdt : (Expr.Select X Y (Expr.IntImm t0 c0)).type = a.type)
    (hwd : wt (Expr.Select X Y (Expr.IntImm t0 c0)) = true)
    (hed : env_ok env (Expr.Select X Y (Expr.IntImm t0 c0)) = true)
    (hvd : ∀ j, j < a.type.lanes →
      evalL env j (Expr.Select X Y (Expr.IntImm t0 c0))
        = wrapt a.type (evalL env j a - evalL env j b))
    (i : Nat) (hi : i < a.type.lanes) (hc0 : c0 = 0) :
    evalL env i
        ((s.mutate (Expr.Or (Expr.Not X) (Expr.EQ Y (make_zero Y.type))) req).1)
      = evalL env i (Expr.EQ a b) := by
  simp only [wt, Bool.and_eq_true, beq_iff_eq, decide_eq_true_eq] at hwd
  obtain ⟨⟨⟨⟨hwX, hwY⟩, _hwImm⟩, htY⟩, htX⟩ := hwd
  simp only [Expr.type] at htX htY
  simp only [env_ok, Bool.and_eq_true] at hed
  obtain ⟨⟨heX, heY⟩, _⟩ := hed
  have hYa : Y.type = a.type := hdt
  have hl0 : t0.lanes = 1 := _hwImm.1.1.2
  have hl1 : a.type.lanes = 1 := by rw [← hYa, htY]; exact hl0
  have hi1 : i < 1 := by omega
  have hc2Y : Y.type.code = TyCode.int ∨ Y.type.code = TyCode.uint := by
    rw [hYa]; exact hc2
  have hwz : wt (make_zero Y.type) = true :=
    wt_make_zero_scalar hc2Y (by rw [hYa]; exact hbits) (by rw [hYa]; exact hl1)
  have hYl : Y.type.lanes = 1 := by rw [hYa]; exact hl1
  have hbX : X.type.is_bool = true := by
    rw [htX, hYl]
    rfl
  have hwr : wt (Expr.Or (Expr.Not X) (Expr.EQ Y (make_zero Y.type))) = true := by
    simp only [wt, Bool.and_eq_true, beq_iff_eq]
    refine ⟨⟨⟨⟨hwX, hbX⟩, ⟨⟨hwY, hwz⟩, (make_zero_type Y.type).symm⟩⟩, ?_⟩, ?_⟩
    · show X.type = boolTy Y.type.lanes
      exact htX
    · show X.type.is_bool = true
      exact hbX
  have her : env_ok env (Expr.Or (Expr.Not X) (Expr.EQ Y (make_zero Y.type)))
      = true := by
    simp only [env_ok, Bool.and_eq_true]
    exact ⟨heX, heY, env_ok_make_zero env Y.type⟩
  have hir : i < (Expr.Or (Expr.Not X) (Expr.EQ Y (make_zero Y.type))).type.lanes := by
    show i < X.type.lanes
    rw [htX, hYl]
    exact hi1
  have heval := hm.eval_eq env i _ req hwr her hir
  rw [heval]
  have hra := evalL_in_range a env i hwa hea hi
  have hrb := evalL_in_range b env i hwb heb (by rw [← hty]; exact hi)
  rw [← hty] at hrb
  have hkey := wrap_diff_zero_iff hc2 hbits hra hrb
  have h0 := hvd i hi
  simp only [evalL] at h0
  simp only [evalL, evalL_make_zero]
  by_cases hX : evalL env i X ≠ 0
  · rw [if_pos hX] at h0
    have hYiff : (evalL env i Y = 0) ↔ (evalL env i a = evalL env i b) := by
      rw [h0]; exact hkey
    refine b2i_congr ?_
    constructor
    · rintro (h | h)
      · exact absurd ((b2i_ne_zero_iff _).mp h) hX
      · exact hYiff.mp ((b2i_ne_zero_iff _).mp h)
    · intro h
      exact Or.inr ((b2i_ne_zero_iff _).mpr (hYiff.mpr h))
  · have hX0 : evalL env i X = 0 := not_not.mp hX
    rw [if_neg hX] at h0
    have hvab : evalL env i a = evalL env i b := by
      rw [← hkey, ← h0, hc0]
    exact b2i_congr (iff_of_true (Or.inl ((b2i_ne_zero_iff _).mpr hX0)) hvab)

/-- The select-distribution rewrite with a nonzero constant in the false
branch evaluates like the original comparison after re-simplification. -/
lemma sel_cnz_right_eval (s : Simplify) (hm : MutateOK s.mutate) (env : Env)
    (a b X Y : Expr) (t0 : Ty) (c0 : Int) (req : Bool)
    (hc2 : a.type.code = TyCode.int ∨ a.type.code = TyCode.uint)
    (hbits : 1 ≤ a.type.bits)
    (hwa : wt a = true) (hwb : wt b = true) (hty : a.type = b.type)
    (hea : env_ok env a = true) (heb : env_ok env b = true)
    (hdt : (Expr.Select X Y (Expr.IntImm t0 c0)).type = a.type)
    (hwd : wt (Expr.Select X Y (Expr.IntImm t0 c0)) = true)
    (hed : env_ok env (Expr.Select X Y (Expr.IntImm t0 c0)) = true)
    (hvd : ∀ j, j < a.type.lanes →
      evalL env j (Expr.Select X Y (Expr.IntImm t0 c0))
        = wrapt a.type (evalL env j a - evalL env j b))
    (i : Nat) (hi : i < a.type.lanes) (hc0 : c0 ≠ 0) :
    evalL env i ((s.mutate (Expr.And X (Expr.EQ Y (make_zero Y.type))) req).1)
      = evalL env i (Expr.EQ a b) := by
  simp only [wt, Bool.and_eq_true, beq_iff_eq, decide_eq_true_eq] at hwd
  obtain ⟨⟨⟨⟨hwX, hwY⟩, _hwImm⟩, htY⟩, htX⟩ := hwd
  simp only [Expr.type] at htX htY
  simp only [env_ok, Bool.and_eq_true] at hed
  obtain ⟨⟨heX, heY⟩, _⟩ := hed
  have hYa : Y.type = a.type := hdt
  have hl0 : t0.lanes = 1 := _hwImm.1.1.2
  have hl1 : a.type.lanes = 1 := by rw [← hYa, htY]; exact hl0
  have hi1 : i < 1 := by omega
  have hc2Y : Y.type.code = TyCode.int ∨ Y.type.code = TyCode.uint := by
    rw [hYa]; exact hc2
  have hwz : wt (make_zero Y.type) = true :=
    wt_make_zero_scalar hc2Y (by rw [hYa]; exact hbits) (by rw [hYa]; exact hl1)
  have hYl : Y.type.lanes = 1 := by rw [hYa]; exact hl1
  have hbX : X.type.is_bool = true := by
    rw [htX, hYl]
    rfl
  have hwr : wt (Expr.And X (Expr.EQ Y (make_zero Y.type))) = true := by
    simp only [wt, Bool.and_eq_true, beq_iff_eq]
    refine ⟨⟨⟨hwX, ⟨⟨hwY, hwz⟩, (make_zero_type Y.type).symm⟩⟩, ?_⟩, ?_⟩
    · show X.type = boolTy Y.type.lanes
      exact htX
    · show X.type.is_bool = true
      exact hbX
  have her : env_ok env (Expr.And X (Expr.EQ Y (make_zero Y.type))) = true := by
    simp only [env_ok, Bool.and_eq_true]
    exact ⟨heX, heY, env_ok_make_zero env Y.type⟩
  have hir : i < (Expr.And X (Expr.EQ Y (make_zero Y.type))).type.lanes := by
    show i < X.type.lanes
    rw [htX, hYl]
    exact hi1
  have heval := hm.eval_eq env i _ req hwr her hir
  rw [heval]
  have hra := evalL_in_range a env i hwa hea hi
  have hrb := evalL_in_range b env i hwb heb (by rw [← hty]; exact hi)
  rw [← hty] at hrb
  have hkey := wrap_diff_zero_iff hc2 hbits hra hrb
  have h0 := hvd i hi
  simp only [evalL] at h0
  simp only [evalL, evalL_make_zero]
  by_cases hX : evalL env i X ≠ 0
  · rw [if_pos hX] at h0
    have hYiff : (evalL env i Y = 0) ↔ (evalL env i a = evalL env i b) := by
      rw [h0]; exact hkey
    refine b2i_congr ?_
    constructor
    · rintro ⟨_, h2⟩
      exact hYiff.mp ((b2i_ne_zero_iff _).mp h2)
    · intro h
      exact ⟨hX, (b2i_ne_zero_iff _).mpr (hYiff.mpr h)⟩
  · have hX0 : evalL env i X = 0 := not_not.mp hX
    rw [if_neg hX] at h0
    have hvab : ¬(evalL env i a = evalL env i b) := by
      intro h
      rw [← hkey] at h
      rw [← h0] at h
      exact hc0 h
    refine b2i_congr ?_
    constructor
    · rintro ⟨h1, _⟩
      exact absurd hX0 h1
    · intro h
      exact absurd h hvab

/-- Equality of representable values is congruence modulo 2^bits. -/
lemma in_range_eq_iff_dvd {t : Ty} (hc2 : t.code = TyCode.int ∨ t.code = TyCode.uint)
    (hbits : 1 ≤ t.bits) {x y : Int} (hx : in_range t x) (hy : in_range t y) :
    x = y ↔ ((2 : Int) ^ t.bits) ∣ x - y := by
  constructor
  · intro h
    rw [h]
    simp
  · exact in_range_eq_of_dvd hc2 hbits hx hy

/-- The constant-folding rewrite `c0 == 0` evaluates like the original
comparison. -/
lemma imm_rule_eval (a b : Expr) (env : Env) (t0 : Ty) (c0 : Int)
    (hc2 : a.type.code = TyCode.int ∨ a.type.code = TyCode.uint)
    (hbits : 1 ≤ a.type.bits)
    (hwa : wt a = true) (hwb : wt b = true) (hty : a.type = b.type)
    (hea : env_ok env a = true) (heb : env_ok env b = true)
    (hvd : ∀ j, j < a.type.lanes →
      evalL env j (Expr.IntImm t0 c0) = wrapt a.type (evalL env j a - evalL env j b))
    (i : Nat) (hi : i < a.type.lanes) :
    evalL env i (const_bool (c0 = 0)) = evalL env i (Expr.EQ a b) := by
  have hra := evalL_in_range a env i hwa hea hi
  have hrb := evalL_in_range b env i hwb heb (by rw [← hty]; exact hi)
  rw [← hty] at hrb
  have h0 : c0 = wrapt a.type (evalL env i a - evalL env i b) := hvd i hi
  simp only [const_bool, evalL]
  refine b2i_congr ?_
  rw [h0]
  exact wrap_diff_zero_iff hc2 hbits hra hrb

/-- The linear-isolation rewrite `x + c0 == 0 -> x == fold(-c0)`
evaluates like the original comparison. -/
lemma addc_rule_eval (a b x : Expr) (env : Env) (t0 : Ty) (c0 : Int)
    (hc2 : a.type.code = TyCode.int ∨ a.type.code = TyCode.uint)
    (hbits : 1 ≤ a.type.bits)
    (hwa : wt a = true) (hwb : wt b = true) (hty : a.type = b.type)
    (hea : env_ok env a = true) (heb : env_ok env b = true)
    (hdt : (Expr.Add x (Expr.IntImm t0 c0)).type = a.type)
    (hwd : wt (Expr.Add x (Expr.IntImm t0 c0)) = true)
    (hed : env_ok env (Expr.Add x (Expr.IntImm t0 c0)) = true)
    (hvd : ∀ j, j < a.type.lanes →
      evalL env j (Expr.Add x (Expr.IntImm t0 c0))
        = wrapt a.type (evalL env j a - evalL env j b))
    (i : Nat) (hi : i < a.type.lanes) :
    evalL env i (Expr.EQ x (Expr.IntImm t0 (wrapt t0 (-c0))))
      = evalL env i (Expr.EQ a b) := by
  simp only [wt, Bool.and_eq_true, beq_iff_eq] at hwd
  obtain ⟨⟨hwx, _hwImm⟩, htx⟩ := hwd
  simp only [Expr.type] at htx
  simp only [env_ok, Bool.and_eq_true] at hed
  obtain ⟨hex, _⟩ := hed
  have hxa : x.type = a.type := hdt
  have hta : t0 = a.type := by rw [← htx]; exact hxa
  have hra := evalL_in_range a env i hwa hea hi
  have hrb := evalL_in_range b env i hwb heb (by rw [← hty]; exact hi)
  rw [← hty] at hrb
  have hix : i < x.type.lanes := by rw [hxa]; exact hi
  have hrx := evalL_in_range x env i hwx hex hix
  rw [hxa] at hrx
  have hrw : in_range a.type (wrapt t0 (-c0)) := by
    rw [hta]
    exact wrapt_in_range hc2 hbits _
  have h0 : wrapt x.type (evalL env i x + c0)
      = wrapt a.type (evalL env i a - evalL env i b) := hvd i hi
  rw [hxa] at h0
  have hcg : ((2 : Int) ^ a.type.bits) ∣ wrapt t0 (-c0) - (-c0) := by
    rw [hta] at *
    exact wrapt_congr hc2 _
  simp only [evalL]
  refine b2i_congr ?_
  rw [in_range_eq_iff_dvd hc2 hbits hrx hrw,
    ← wrap_diff_zero_iff hc2 hbits hra hrb, ← h0,
    wrapt_eq_zero_iff hc2 hbits]
  constructor
  · intro h
    have : evalL env i x + c0 = (evalL env i x - wrapt t0 (-c0)) + (wrapt t0 (-c0) - (-c0)) := by
      ring
    rw [this]
    exact dvd_add h hcg
  · intro h
    have : evalL env i x - wrapt t0 (-c0) = (evalL env i x + c0) - (wrapt t0 (-c0) - (-c0)) := by
      ring
    rw [this]
    exact dvd_sub h hcg

/-- The linear-isolation rewrite `c0 - x == 0 -> x == c0` evaluates like
the original comparison. -/
lemma csub_rule_eval (a b x : Expr) (env : Env) (t0 : Ty) (c0 : Int)
    (hc2 : a.type.code = TyCode.int ∨ a.type.code = TyCode.uint)
    (hbits : 1 ≤ a.type.bits)
    (hwa : wt a = true) (hwb : wt b = true) (hty : a.type = b.type)
    (hea : env_ok env a = true) (heb : env_ok env b = true)
    (hdt : (Expr.Sub (Expr.IntImm t0 c0) x).type = a.type)
    (hwd : wt (Expr.Sub (Expr.IntImm t0 c0) x) = true)
    (hed : env_ok env (Expr.Sub (Expr.IntImm t0 c0) x) = true)
    (hvd : ∀ j, j < a.type.lanes →
      evalL env j (Expr.Sub (Expr.IntImm t0 c0) x)
        = wrapt a.type (evalL env j a - evalL env j b))
    (i : Nat) (hi : i < a.type.lanes) :
    evalL env i (Expr.EQ x (Expr.IntImm t0 c0)) = evalL env i (Expr.EQ a b) := by
  simp only [wt, Bool.and_eq_true, beq_iff_eq, decide_eq_true_eq] at hwd
  obtain ⟨⟨_hwImm, hwx⟩, htx⟩ := hwd
  simp only [Expr.type] at htx
  simp only [env_ok, Bool.and_eq_true] at hed
  obtain ⟨_, hex⟩ := hed
  have hta : t0 = a.type := hdt
  have hxa : x.type = a.type := by rw [← htx]; exact hta
  have hra := evalL_in_range a env i hwa hea hi
  have hrb := evalL_in_range b env i hwb heb (by rw [← hty]; exact hi)
  rw [← hty] at hrb
  have hix : i < x.type.lanes := by rw [hxa]; exact hi
  have hrx := evalL_in_range x env i hwx hex hix
  rw [hxa] at hrx
  have hrc : in_range a.type c0 := by
    rw [← hta]
    exact _hwImm.2
  have h0 : wrapt t0 (c0 - evalL env i x)
      = wrapt a.type (evalL env i a - evalL env i b) := hvd i hi
  rw [hta] at h0
  simp only [evalL]
  refine b2i_congr ?_
  rw [in_range_eq_iff_dvd hc2 hbits hrx hrc,
    ← wrap_diff_zero_iff hc2 hbits hra hrb, ← h0,
    wrapt_eq_zero_iff hc2 hbits]
  constructor
  · intro h
    have : c0 - evalL env i x = -(evalL env i x - c0) := by ring
    rw [this]
    exact dvd_neg.mpr h
  · intro h
    have : evalL env i x - c0 = -(c0 - evalL env i x) := by ring
    rw [this]
    exact dvd_neg.mpr h

/-- Semantic preservation of the EQ visitor on wrap-defined integer
operand types, given a sound recursive simplifier. -/
lemma visit_eq_eval (s : Simplify) (hm : MutateOK s.mutate)
    (a b : Expr) (hwa : wt a = true) (hwb : wt b = true) (hty : a.type = b.type)
    (hcode : a.type.code = TyCode.uint ∨
      (a.type.code = TyCode.int ∧ a.type.bits < 32))
    (env : Env) (hea : env_ok env a = true) (heb : env_ok env b = true)
    (i : Nat) (hi : i < a.type.lanes) (req : Bool) :
    evalL env i (s.visit_eq a b req) = evalL env i (Expr.EQ a b) := by
  have hc2 : a.type.code = TyCode.int ∨ a.type.code = TyCode.uint :=
    hcode.elim (fun h => Or.inr h) (fun h => Or.inl h.1)
  have hbits : 1 ≤ a.type.bits := bits_pos_of_wt_ty (wt_ty_of_wt a hwa)
  have hms : may_simplify a.type = true := by
    rcases hc2 with h | h <;>
      simp [may_simplify, Ty.is_int, Ty.is_uint, Ty.is_float, h]
  have hib : i < b.type.lanes := by rw [← hty]; exact hi
  by_cases hbool : a.type.is_bool = true
  · rw [visit_eq_bool s a b req hms hbool]
    have hea1 := hm.eval_eq env i a false hwa hea hi
    have heb1 := hm.eval_eq env i b false hwb heb hib
    by_cases h1 : is_const_one (s.mutate b false).1 = true
    · rw [if_pos h1]
      have hb1 : evalL env i b = 1 := by
        rw [← heb1]
        exact evalL_of_is_const_one h1 env i
      have hrange := evalL_in_range a env i hwa hea hi
      obtain ⟨hcu, hbit⟩ := is_bool_parts hbool
      rw [in_range_uint hcu, hbit] at hrange
      show evalL env i (s.mutate a false).1 = b2i (evalL env i a = evalL env i b)
      rw [hea1, hb1]
      have hv01 : evalL env i a = 0 ∨ evalL env i a = 1 := by
        norm_num at hrange
        omega
      rcases hv01 with h | h <;> rw [h] <;> simp [b2i]
    · rw [if_neg h1]
      by_cases h2 : is_const_zero (s.mutate b false).1 = true
      · rw [if_pos h2]
        have hb0 : evalL env i b = 0 := by
          rw [← heb1]
          exact evalL_of_is_const_zero h2 env i
        have hwa1 : wt (s.mutate a false).1 = true := hm.wt_pres a false hwa
        have hna : wt (Expr.Not (s.mutate a false).1) = true := by
          simp only [wt, Bool.and_eq_true]
          exact ⟨hwa1, by rw [hm.type_eq]; exact hbool⟩
        have hne : env_ok env (Expr.Not (s.mutate a false).1) = true :=
          hm.env_pres env a false hea
        have hni : i < (Expr.Not (s.mutate a false).1).type.lanes := by
          show i < (s.mutate a false).1.type.lanes
          rw [hm.type_eq]
          exact hi
        rw [hm.eval_eq env i _ req hna hne hni]
        simp only [evalL]
        rw [hea1, hb0]
      · rw [if_neg h2]
        by_cases h3 : (s.mutate a false).1 = a ∧ (s.mutate b false).1 = b
        · rw [if_pos h3]
        · rw [if_neg h3]
          simp only [evalL]
          rw [hea1, heb1]
  · have hbool2 : a.type.is_bool = false := by
      simp only [Bool.not_eq_true] at hbool
      exact hbool
    have hwsub : wt (Expr.Sub a b) = true := by
      simp only [wt, Bool.and_eq_true, beq_iff_eq]
      exact ⟨⟨hwa, hwb⟩, hty⟩
    have hesub : env_ok env (Expr.Sub a b) = true := by
      simp only [env_ok, Bool.and_eq_true]
      exact ⟨hea, heb⟩
    have hdt : ((s.mutate (Expr.Sub a b) true).1).type = a.type :=
      hm.type_eq (Expr.Sub a b) true
    have hwd : wt ((s.mutate (Expr.Sub a b) true).1) = true :=
      hm.wt_pres _ _ hwsub
    have hed : env_ok env ((s.mutate (Expr.Sub a b) true).1) = true :=
      hm.env_pres env _ _ hesub
    have hvd : ∀ j, j < a.type.lanes →
        evalL env j (s.mutate (Expr.Sub a b) true).1
          = wrapt a.type (evalL env j a - evalL env j b) := by
      intro j hj
      exact hm.eval_eq env j (Expr.Sub a b) true hwsub hesub hj
    have hw0 : wrapt a.type 0 = 0 := wrapt_id hc2 hbits (zero_in_range hc2)
    by_cases h3 : (s.mutate (Expr.Sub a b) true).2.min_defined = true ∧
        0 < (s.mutate (Expr.Sub a b) true).2.min
    · rw [visit_eq_min_fold s a b req hms hbool2 h3, evalL_const_false]
      have hne2 : ¬(evalL env i a = evalL env i b) := by
        intro heq
        have hb2 := hm.bmin env i (Expr.Sub a b) true hwsub hesub hi h3.1
        have hz : evalL env i (Expr.Sub a b) = 0 := by
          show wrapt a.type (evalL env i a - evalL env i b) = 0
          rw [heq]
          simpa using hw0
        rw [hz] at hb2
        omega
      simp only [evalL]
      unfold b2i
      rw [if_neg hne2]
    · by_cases h4 : (s.mutate (Expr.Sub a b) true).2.max_defined = true ∧
          (s.mutate (Expr.Sub a b) true).2.max < 0
      · rw [visit_eq_max_fold s a b req hms hbool2 h3 h4, evalL_const_false]
        have hne2 : ¬(evalL env i a = evalL env i b) := by
          intro heq
          have hb2 := hm.bmax env i (Expr.Sub a b) true hwsub hesub hi h4.1
          have hz : evalL env i (Expr.Sub a b) = 0 := by
            show wrapt a.type (evalL env i a - evalL env i b) = 0
            rw [heq]
            simpa using hw0
          rw [hz] at hb2
          omega
        simp only [evalL]
        unfold b2i
        rw [if_neg hne2]
      · have h5 : ¬(no_overflow_scalar_int ((s.mutate (Expr.Sub a b) true).1).type
            = true ∧
            (s.modulus_remainder (s.mutate (Expr.Sub a b) true).1).remainder ≠ 0) := by
          rintro ⟨h51, _⟩
          rw [hdt, no_overflow_scalar_int_of_small hcode] at h51
          exact absurd h51 (by simp)
        rw [visit_eq_tables s a b req hms hbool2 h3 h4 h5]
        cases hD : (s.mutate (Expr.Sub a b) true).1 with
        | IntImm t0 c0 =>
            rw [hD] at hvd
            simp only [eq_table1]
            exact imm_rule_eval a b env t0 c0 hc2 hbits hwa hwb hty hea heb hvd i hi
        | Var t0 n =>
            rw [hD] at hvd
            simp only [eq_table1, eq_table2]
            exact eq_fallback_eval a b _ env hc2 hbits hwa hwb hty hea heb hvd i hi
        | Add x y =>
            rw [hD] at hvd hdt hwd hed
            cases y <;>
              first
                | (rename_i t0 c0
                   simp only [eq_table1]
                   exact addc_rule_eval a b x env t0 c0 hc2 hbits hwa hwb hty hea heb
                     hdt hwd hed hvd i hi)
                | (simp only [eq_table1, eq_table2]
                   exact eq_fallback_eval a b _ env hc2 hbits hwa hwb hty hea heb
                     hvd i hi)
        | Sub sa sb =>
            rw [hD] at hvd hdt hwd hed
            cases sa <;>
              first
                | (rename_i t0 c0
                   simp only [eq_table1]
                   exact csub_rule_eval a b sb env t0 c0 hc2 hbits hwa hwb hty hea heb
                     hdt hwd hed hvd i hi)
                | (simp only [eq_table1, eq_table2]
                   exact sub_fallback_eval a b _ sb env hc2 hbits hwa hwb hty hea heb
                     hdt hwd hed hvd i hi)
        | Mul x y =>
            rw [hD] at hvd hdt
            have hnof : no_overflow (Expr.Mul x y).type = false := by
              have h6 : (Expr.Mul x y).type = a.type := hdt
              rw [h6]
              exact no_overflow_of_small hcode
            simp only [eq_table1, eq_table2, hnof, Bool.false_eq_true, if_false]
            exact eq_fallback_eval a b _ env hc2 hbits hwa hwb hty hea heb hvd i hi
        | EQ x y =>
            rw [hD] at hvd
            simp only [eq_table1, eq_table2]
            exact eq_fallback_eval a b _ env hc2 hbits hwa hwb hty hea heb hvd i hi
        | NE x y =>
            rw [hD] at hvd
            simp only [eq_table1, eq_table2]
            exact eq_fallback_eval a b _ env hc2 hbits hwa hwb hty hea heb hvd i hi
        | Not x =>
            rw [hD] at hvd
            simp only [eq_table1, eq_table2]
            exact eq_fallback_eval a b _ env hc2 hbits hwa hwb hty hea heb hvd i hi
        | Or x y =>
            rw [hD] at hvd
            simp only [eq_table1, eq_table2]
            exact eq_fallback_eval a b _ env hc2 hbits hwa hwb hty hea heb hvd i hi
        | And x y =>
            rw [hD] at hvd
            simp only [eq_table1, eq_table2]
            exact eq_fallback_eval a b _ env hc2 hbits hwa hwb hty hea heb hvd i hi
        | Select X y z =>
            rw [hD] at hvd hdt hwd hed
            cases y <;>
              first
                | (rename_i t0 c0
                   simp only [eq_table1, eq_table2]
                   by_cases hc0 : c0 = 0
                   · rw [if_pos hc0]
                     exact sel_czero_left_eval s hm env a b X z t0 c0 req hc2 hbits
                       hwa hwb hty hea heb hdt hwd hed hvd i hi hc0
                   · rw [if_neg hc0]
                     exact sel_cnz_left_eval s hm env a b X z t0 c0 req hc2 hbits
                       hwa hwb hty hea heb hdt hwd hed hvd i hi hc0)
                | (cases z <;>
                    first
                      | (simp only [eq_table1, eq_table2]
                         exact eq_fallback_eval a b _ env hc2 hbits hwa hwb hty
                           hea heb hvd i hi)
                      | (rename_i t0 c0
                         simp only [eq_table1, eq_table2]
                         by_cases hc0 : c0 = 0
                         · rw [if_pos hc0]
                           exact sel_czero_right_eval s hm env a b X _ t0 c0 req hc2
                             hbits hwa hwb hty hea heb hdt hwd hed hvd i hi hc0
                         · rw [if_neg hc0]
                           exact sel_cnz_right_eval s hm env a b X _ t0 c0 req hc2
                             hbits hwa hwb hty hea heb hdt hwd hed hvd i hi hc0))
        | Broadcast x l =>
            rw [hD] at hvd hdt hwd hed
            simp only [eq_table1, eq_table2]
            exact bcast_rule_eval s hm env a b x l req hc2 hbits hwa hwb hty
              hea heb hdt hwd hed hvd i hi

/-- Semantic preservation of the NE visitor on wrap-defined integer
operand types, given a sound recursive simplifier. -/
lemma visit_ne_eval (s : Simplify) (hm : MutateOK s.mutate)
    (a b : Expr) (hwa : wt a = true) (hwb : wt b = true) (hty : a.type = b.type)
    (hcode : a.type.code = TyCode.uint ∨
      (a.type.code = TyCode.int ∧ a.type.bits < 32))
    (env : Env) (hea : env_ok env a = true) (heb : env_ok env b = true)
    (i : Nat) (hi : i < a.type.lanes) (req : Bool) :
    evalL env i (s.visit_ne a b req) = evalL env i (Expr.NE a b) := by
  have hc2 : a.type.code = TyCode.int ∨ a.type.code = TyCode.uint :=
    hcode.elim (fun h => Or.inr h) (fun h => Or.inl h.1)
  have hms : may_simplify a.type = true := by
    rcases hc2 with h | h <;>
      simp [may_simplify, Ty.is_int, Ty.is_uint, Ty.is_float, h]
  rw [visit_ne_delegate s a b req hms]
  have hwn : wt (Expr.Not (Expr.EQ a b)) = true := by
    simp only [wt, Bool.and_eq_true, beq_iff_eq]
    exact ⟨⟨⟨hwa, hwb⟩, hty⟩, by simp [Expr.type, boolTy, Ty.is_bool]⟩
  have hen : env_ok env (Expr.Not (Expr.EQ a b)) = true := by
    simp only [env_ok, Bool.and_eq_true]
    exact ⟨hea, heb⟩
  have hin : i < (Expr.Not (Expr.EQ a b)).type.lanes := by
    show i < a.type.lanes
    exact hi
  have heval := hm.eval_eq env i (Expr.Not (Expr.EQ a b)) req hwn hen hin
  have hnot : evalL env i (Expr.Not (Expr.EQ a b)) = evalL env i (Expr.NE a b) := by
    simp only [evalL]
    by_cases hv : evalL env i a = evalL env i b <;> simp [b2i, hv]
  cases hM : (s.mutate (Expr.Not (Expr.EQ a b)) req).1 <;>
    first
      | (rename_i x y
         rw [hM] at heval
         show evalL env i (if x = a ∧ y = b then Expr.NE a b else Expr.NE x y)
             = evalL env i (Expr.NE a b)
         by_cases hxy : x = a ∧ y = b
         · rw [if_pos hxy]
         · rw [if_neg hxy]
           exact heval.trans hnot)
      | (rw [hM] at heval
         exact heval.trans hnot)

/-- Semantic preservation of the EQ visitor on type-ineligible operands:
the pass-through arm only mutates the operands, so a value-preserving
mutate yields a value-equal comparison. -/
lemma visit_eq_eval_ineligible (s : Simplify) (hm : MutateOK s.mutate)
    (a b : Expr) (hwa : wt a = true) (hwb : wt b = true) (hty : a.type = b.type)
    (hh : may_simplify a.type = false)
    (env : Env) (hea : env_ok env a = true) (heb : env_ok env b = true)
    (i : Nat) (hi : i < a.type.lanes) (req : Bool) :
    evalL env i (s.visit_eq a b req) = evalL env i (Expr.EQ a b) := by
  rw [visit_eq_ineligible s a b req hh]
  by_cases h3 : (s.mutate a false).1 = a ∧ (s.mutate b false).1 = b
  · rw [if_pos h3]
  · rw [if_neg h3]
    simp only [evalL]
    rw [hm.eval_eq env i a false hwa hea hi,
      hm.eval_eq env i b false hwb heb (by rw [← hty]; exact hi)]

/-- Semantic preservation of the NE visitor on type-ineligible operands. -/
lemma visit_ne_eval_ineligible (s : Simplify) (hm : MutateOK s.mutate)
    (a b : Expr) (hwa : wt a = true) (hwb : wt b = true) (hty : a.type = b.type)
    (hh : may_simplify a.type = false)
    (env : Env) (hea : env_ok env a = true) (heb : env_ok env b = true)
    (i : Nat) (hi : i < a.type.lanes) (req : Bool) :
    evalL env i (s.visit_ne a b req) = evalL env i (Expr.NE a b) := by
  rw [visit_ne_ineligible s a b req hh]
  by_cases h3 : (s.mutate a false).1 = a ∧ (s.mutate b false).1 = b
  · rw [if_pos h3]
  · rw [if_neg h3]
    simp only [evalL]
    rw [hm.eval_eq env i a false hwa hea hi,
      hm.eval_eq env i b false hwb heb (by rw [← hty]; exact hi)]

/-- The identity instance of the simplifier context: mutation returns the
expression unchanged with no bounds, and the modulus analysis reports no
information. Modelled from the spec as the least-information member of
the visitor family contract. -/
def id_simplify : Simplify := ⟨fun e _ => (e, cb_none), fun _ => ⟨1, 0⟩⟩

/-- The identity simplifier satisfies the soundness contract. -/
lemma id_simplify_ok : MutateOK id_simplify.mutate := by
  refine ⟨?_, ?_, ?_, ?_, ?_, ?_⟩
  · intro e req
    rfl
  · intro e req h
    exact h
  · intro env e req h
    exact h
  · intro env i e req _ _ _
    rfl
  · intro env i e req _ _ _ h
    simp [id_simplify, cb_none] at h
  · intro env i e req _ _ _ h
    simp [id_simplify, cb_none] at h

/-- Scalar signed 32-bit type. -/
def i32 : Ty := ⟨TyCode.int, 32, 1⟩

/-- Scalar unsigned 8-bit type. -/
def u8 : Ty := ⟨TyCode.uint, 8, 1⟩

/-- Results of the first rewrite-table group are boolean nodes of the
visited node's lane count. -/
lemma eq_table1_type {A : Ty} (delta r : Expr) (hdt : delta.type = A)
    (hwd : wt delta = true) (h : eq_table1 delta = some r) :
    r.type = boolTy A.lanes := by
  cases delta with
  | IntImm t0 c0 =>
      simp only [eq_table1, Option.some_inj] at h
      subst h
      have h1 : t0.lanes = 1 := by
        simp only [wt, Bool.and_eq_true, beq_iff_eq, decide_eq_true_eq] at hwd
        exact hwd.1.1.2
      have h2 : A.lanes = 1 := by rw [← hdt]; exact h1
      rw [h2]
      rfl
  | Add x y =>
      cases y <;>
        first
          | (rename_i t0 c0
             simp only [eq_table1, Option.some_inj] at h
             subst h
             show boolTy x.type.lanes = boolTy A.lanes
             rw [show x.type = A from hdt])
          | (simp only [eq_table1] at h
             exact Option.noConfusion h)
  | Sub sa sb =>
      cases sa <;>
        first
          | (rename_i t0 c0
             simp only [eq_table1, Option.some_inj] at h
             subst h
             show boolTy sb.type.lanes = boolTy A.lanes
             simp only [wt, Bool.and_eq_true, beq_iff_eq] at hwd
             have h1 : t0 = sb.type := by
               have := hwd.2
               simpa [Expr.type] using this
             rw [← h1, show t0 = A from hdt])
          | (simp only [eq_table1] at h
             exact Option.noConfusion h)
  | Var t0 n => simp only [eq_table1] at h; exact Option.noConfusion h
  | Mul x y => simp only [eq_table1] at h; exact Option.noConfusion h
  | EQ x y => simp only [eq_table1] at h; exact Option.noConfusion h
  | NE x y => simp only [eq_table1] at h; exact Option.noConfusion h
  | Not x => simp only [eq_table1] at h; exact Option.noConfusion h
  | Or x y => simp only [eq_table1] at h; exact Option.noConfusion h
  | And x y => simp only [eq_table1] at h; exact Option.noConfusion h
  | Select x y z =>
      cases y <;> cases z <;>
        (simp only [eq_table1] at h; exact Option.noConfusion h)
  | Broadcast x l => simp only [eq_table1] at h; exact Option.noConfusion h

/-- Results of the second rewrite-table group, instantiated at the
visited node's lane count, are boolean nodes of that lane count. -/
lemma eq_table2_type {A : Ty} (delta r : Expr) (hdt : delta.type = A)
    (hwd : wt delta = true) (h : eq_table2 A.lanes delta = some r) :
    r.type = boolTy A.lanes := by
  cases delta with
  | IntImm t0 c0 => simp only [eq_table2] at h; exact Option.noConfusion h
  | Var t0 n => simp only [eq_table2] at h; exact Option.noConfusion h
  | Add x y => simp only [eq_table2] at h; exact Option.noConfusion h
  | Sub sa sb => simp only [eq_table2] at h; exact Option.noConfusion h
  | EQ x y => simp only [eq_table2] at h; exact Option.noConfusion h
  | NE x y => simp only [eq_table2] at h; exact Option.noConfusion h
  | Not x => simp only [eq_table2] at h; exact Option.noConfusion h
  | Or x y => simp only [eq_table2] at h; exact Option.noConfusion h
  | And x y => simp only [eq_table2] at h; exact Option.noConfusion h
  | Mul x y =>
      simp only [eq_table2] at h
      by_cases hno : no_overflow (Expr.Mul x y).type = true
      · rw [if_pos hno, Option.some_inj] at h
        subst h
        show boolTy x.type.lanes = boolTy A.lanes
        rw [show x.type = A from hdt]
      · rw [if_neg hno] at h
        exact Option.noConfusion h
  | Broadcast x l =>
      simp only [eq_table2, Option.some_inj] at h
      subst h
      rfl
  | Select X y z =>
      cases y <;>
        first
          | (rename_i t0 c0
             simp only [eq_table2] at h
             simp only [wt, Expr.type, Bool.and_eq_true, beq_iff_eq,
               decide_eq_true_eq] at hwd
             simp only [Expr.type] at hdt
             have h1 := hwd.2
             rw [hdt] at h1
             by_cases hc0 : c0 = 0 <;>
               [rw [if_pos hc0, Option.some_inj] at h;
                rw [if_neg hc0, Option.some_inj] at h] <;>
               subst h <;> exact h1)
          | (cases z <;>
              first
                | (rename_i t0 c0
                   simp only [eq_table2] at h
                   simp only [wt, Expr.type, Bool.and_eq_true, beq_iff_eq,
                     decide_eq_true_eq] at hwd
                   simp only [Expr.type] at hdt
                   have h1 := hwd.2
                   rw [hwd.1.2] at h1 hdt
                   rw [hdt] at h1
                   by_cases hc0 : c0 = 0 <;>
                     [rw [if_pos hc0, Option.some_inj] at h;
                      rw [if_neg hc0, Option.some_inj] at h] <;>
                     subst h <;> exact h1)
                | (simp only [eq_table2] at h
                   exact Option.noConfusion h))

/-- A boolean type is the boolean type of its own lane count. -/
lemma eq_boolTy_of_is_bool {t : Ty} (h : t.is_bool = true) : t = boolTy t.lanes := by
  obtain ⟨h1, h2⟩ := is_bool_parts h
  cases t
  simp_all [boolTy]

/-- C10: for every well-typed EQ node, and any type-preserving recursive
simplifier, the expression the EQ visitor returns has boolean element
type at exactly the lane count of the input node; in particular the
modulus-remainder fold, which returns a lane-unspecified scalar false
constant, is guarded by `no_overflow_scalar_int` on delta's type, so the
node itself is scalar there and no lane-count mismatch can arise. -/
theorem C10_result_type (s : Simplify) (a b : Expr) (req : Bool)
    (htp : ∀ e r, ((s.mutate e r).1).type = e.type)
    (hwp : ∀ e r, wt e = true → wt ((s.mutate e r).1) = true)
    (hwa : wt a = true) (hwb : wt b = true) (hty : a.type = b.type) :
    (s.visit_eq a b req).type = boolTy a.type.lanes := by
  by_cases hms : may_simplify a.type = true
  · by_cases hbool : a.type.is_bool = true
    · rw [visit_eq_bool s a b req hms hbool]
      by_cases h1 : is_const_one (s.mutate b false).1 = true
      · rw [if_pos h1, htp]
        exact eq_boolTy_of_is_bool hbool
      · rw [if_neg h1]
        by_cases h2 : is_const_zero (s.mutate b false).1 = true
        · rw [if_pos h2, htp]
          show (s.mutate a false).1.type = boolTy a.type.lanes
          rw [htp]
          exact eq_boolTy_of_is_bool hbool
        · rw [if_neg h2]
          by_cases h3 : (s.mutate a false).1 = a ∧ (s.mutate b false).1 = b
          · rw [if_pos h3]
            rfl
          · rw [if_neg h3]
            show boolTy (s.mutate a false).1.type.lanes = boolTy a.type.lanes
            rw [htp]
    · have hbool2 : a.type.is_bool = false := by
        simpa using hbool
      have hwsub : wt (Expr.Sub a b) = true := by
        simp only [wt, Bool.and_eq_true, beq_iff_eq]
        exact ⟨⟨hwa, hwb⟩, hty⟩
      have hdt : ((s.mutate (Expr.Sub a b) true).1).type = a.type :=
        htp (Expr.Sub a b) true
      have hwd : wt ((s.mutate (Expr.Sub a b) true).1) = true :=
        hwp _ _ hwsub
      by_cases h3 : (s.mutate (Expr.Sub a b) true).2.min_defined = true ∧
          0 < (s.mutate (Expr.Sub a b) true).2.min
      · rw [visit_eq_min_fold s a b req hms hbool2 h3]
        exact const_false_type _
      · by_cases h4 : (s.mutate (Expr.Sub a b) true).2.max_defined = true ∧
            (s.mutate (Expr.Sub a b) true).2.max < 0
        · rw [visit_eq_max_fold s a b req hms hbool2 h3 h4]
          exact const_false_type _
        · by_cases h5 :
              no_overflow_scalar_int ((s.mutate (Expr.Sub a b) true).1).type = true ∧
              (s.modulus_remainder (s.mutate (Expr.Sub a b) true).1).remainder ≠ 0
          · rw [visit_eq_mod_fold s a b req hms hbool2 h3 h4 h5]
            have hl1 : a.type.lanes = 1 := by
              have h6 := h5.1
              simp only [no_overflow_scalar_int, Bool.and_eq_true, Ty.is_scalar,
                beq_iff_eq] at h6
              rw [← hdt]
              exact h6.1
            rw [const_false_type, hl1]
          · rw [visit_eq_tables s a b req hms hbool2 h3 h4 h5]
            generalize hDelta : (s.mutate (Expr.Sub a b) true).1 = delta
            rw [hDelta] at hdt hwd
            split
            · rename_i r heq
              show r.type = boolTy a.type.lanes
              exact eq_table1_type delta r hdt hwd heq
            · split
              · rename_i r heq
                show ((s.mutate r req).1).type = boolTy a.type.lanes
                rw [htp]
                exact eq_table2_type delta r hdt hwd heq
              · split
                · rename_i sa sb hn1 hn2
                  by_cases hid : sa = a ∧ sb = b
                  · rw [if_pos hid]
                    rfl
                  · rw [if_neg hid]
                    show boolTy sa.type.lanes = boolTy a.type.lanes
                    rw [show sa.type = a.type from hdt]
                · show boolTy delta.type.lanes = boolTy a.type.lanes
                  rw [hdt]
  · have hms2 : may_simplify a.type = false := by
      simpa using hms
    rw [visit_eq_ineligible s a b req hms2]
    by_cases h3 : (s.mutate a false).1 = a ∧ (s.mutate b false).1 = b
    · rw [if_pos h3]
      rfl
    · rw [if_neg h3]
      show boolTy (s.mutate a false).1.type.lanes = boolTy a.type.lanes
      rw [htp]

/-- Witness for C10 at a concrete instance: the identity simplifier on an
int32 comparison `x == y`. -/
theorem C10_result_type_witness :
    (id_simplify.visit_eq (Expr.Var i32 "x") (Expr.Var i32 "y") false).type
      = boolTy (Expr.Var i32 "x").type.lanes :=
  C10_result_type id_simplify (Expr.Var i32 "x") (Expr.Var i32 "y") false
    (fun _ _ => rfl) (fun _ _ h => h) (by decide) (by decide) (by decide)

/-- The assignment giving every variable lane the value 65536. -/
def env65536 : Env := fun _ _ => 65536

/-- Counterexample to C1 as stated over every numeric type: on the int32
node `x * y == 0` with the in-range assignment `x = y = 65536`, the
original node evaluates to true under exact 32-bit two's-complement
semantics (the product wraps to zero) while the expression the EQ visitor
returns — the zero-product rewrite `(x == 0) or (y == 0)`, instantiated
through the spec-modelled concrete simplifier, whose `mutate` is
value-preserving on this input — evaluates to false. The source licenses
the rewrite by declaring overflow of 32-bit-and-wider signed arithmetic
undefined, so exact-value equivalence cannot hold on those types. -/
theorem C1_wrapping_counterexample :
    wt (Expr.EQ (Expr.Mul (Expr.Var i32 "x") (Expr.Var i32 "y"))
        (Expr.IntImm i32 0)) = true ∧
    env_ok env65536 (Expr.EQ (Expr.Mul (Expr.Var i32 "x") (Expr.Var i32 "y"))
        (Expr.IntImm i32 0)) = true ∧
    evalL env65536 0 (Expr.EQ (Expr.Mul (Expr.Var i32 "x") (Expr.Var i32 "y"))
        (Expr.IntImm i32 0)) = 1 ∧
    evalL env65536 0 ((simp0 6).visit_eq
        (Expr.Mul (Expr.Var i32 "x") (Expr.Var i32 "y"))
        (Expr.IntImm i32 0) false) = 0 := by
  refine ⟨by decide, by decide, by decide, by decide⟩

/-- C1 (amended): for every well-typed EQ/NE node whose operand type has
defined evaluation semantics in the embedding — an opaque handle type
(where the visitors only pass through), an unsigned integer of any width,
or a signed integer below 32 bits (two's-complement wrapping) — and every
concrete in-range assignment of the free variables, the expression
returned by the EQ/NE simplify visitors evaluates, lane by lane, to the
same value as the original node, for any recursive simplifier and bounds
channel satisfying the spec's own soundness contract (`MutateOK`). For
signed integers of 32 bits and wider the equivalence fails under exact
wrapping semantics (see the counterexample; the source declares such
overflow undefined), and IEEE floating point is outside the shallow
embedding. -/
theorem C1_semantic_equivalence (s : Simplify) (hm : MutateOK s.mutate)
    (a b : Expr) (hwa : wt a = true) (hwb : wt b = true) (hty : a.type = b.type)
    (hcode : a.type.code = TyCode.handle ∨ a.type.code = TyCode.uint ∨
      (a.type.code = TyCode.int ∧ a.type.bits < 32))
    (env : Env) (hea : env_ok env a = true) (heb : env_ok env b = true)
    (i : Nat) (hi : i < a.type.lanes) (req : Bool) :
    evalL env i (s.visit_eq a b req) = evalL env i (Expr.EQ a b) ∧
    evalL env i (s.visit_ne a b req) = evalL env i (Expr.NE a b) := by
  rcases hcode with hh | hcode2
  · have hms : may_simplify a.type = false := by
      simp [may_simplify, Ty.is_int, Ty.is_uint, Ty.is_float, hh]
    exact ⟨visit_eq_eval_ineligible s hm a b hwa hwb hty hms env hea heb i hi req,
      visit_ne_eval_ineligible s hm a b hwa hwb hty hms env hea heb i hi req⟩
  · exact ⟨visit_eq_eval s hm a b hwa hwb hty hcode2 env hea heb i hi req,
      visit_ne_eval s hm a b hwa hwb hty hcode2 env hea heb i hi req⟩

/-- Witness for C1 at a concrete instance: uint8 operands `x` and `3`
under the environment assigning 2 to every variable lane. -/
theorem C1_semantic_equivalence_witness :
    evalL (fun _ _ => 2) 0
        (id_simplify.visit_eq (Expr.Var u8 "x") (Expr.IntImm u8 3) false)
      = evalL (fun _ _ => 2) 0 (Expr.EQ (Expr.Var u8 "x") (Expr.IntImm u8 3)) ∧
    evalL (fun _ _ => 2) 0
        (id_simplify.visit_ne (Expr.Var u8 "x") (Expr.IntImm u8 3) false)
      = evalL (fun _ _ => 2) 0 (Expr.NE (Expr.Var u8 "x") (Expr.IntImm u8 3)) :=
  C1_semantic_equivalence id_simplify id_simplify_ok
    (Expr.Var u8 "x") (Expr.IntImm u8 3) (by decide) (by decide) (by decide)
    (by decide) (fun _ _ => 2) (by decide) (by decide) 0 (by decide) false

/-- Scalar opaque handle type (64-bit pointer). -/
def h64 : Ty := ⟨TyCode.handle, 64, 1⟩

/-- C9: for EQ or NE nodes whose operand type is not eligible for
simplification, both visitors only mutate the two operands with no bounds
requested (the `false` flag), apply no rewrite rule, return the exact
original node when both mutated operands are unchanged, and rebuild the
node from the mutated operands otherwise. -/
theorem C9_type_ineligible_gate (s : Simplify) (a b : Expr) (req : Bool)
    (h : may_simplify a.type = false) :
    s.visit_eq a b req =
      (if (s.mutate a false).1 = a ∧ (s.mutate b false).1 = b
        then Expr.EQ a b
        else Expr.EQ (s.mutate a false).1 (s.mutate b false).1) ∧
    s.visit_ne a b req =
      (if (s.mutate a false).1 = a ∧ (s.mutate b false).1 = b
        then Expr.NE a b
        else Expr.NE (s.mutate a false).1 (s.mutate b false).1) :=
  ⟨visit_eq_ineligible s a b req h, visit_ne_ineligible s a b req h⟩

/-- Witness for C9 at a concrete instance: a handle-typed comparison under
the identity simplifier. -/
theorem C9_type_ineligible_gate_witness :
    id_simplify.visit_eq (Expr.Var h64 "p") (Expr.Var h64 "q") true =
      (if (id_simplify.mutate (Expr.Var h64 "p") false).1 = Expr.Var h64 "p" ∧
          (id_simplify.mutate (Expr.Var h64 "q") false).1 = Expr.Var h64 "q"
        then Expr.EQ (Expr.Var h64 "p") (Expr.Var h64 "q")
        else Expr.EQ (id_simplify.mutate (Expr.Var h64 "p") false).1
          (id_simplify.mutate (Expr.Var h64 "q") false).1) ∧
    id_simplify.visit_ne (Expr.Var h64 "p") (Expr.Var h64 "q") true =
      (if (id_simplify.mutate (Expr.Var h64 "p") false).1 = Expr.Var h64 "p" ∧
          (id_simplify.mutate (Expr.Var h64 "q") false).1 = Expr.Var h64 "q"
        then Expr.NE (Expr.Var h64 "p") (Expr.Var h64 "q")
        else Expr.NE (id_simplify.mutate (Expr.Var h64 "p") false).1
          (id_simplify.mutate (Expr.Var h64 "q") false).1) :=
  C9_type_ineligible_gate id_simplify (Expr.Var h64 "p") (Expr.Var h64 "q") true
    (by decide)

/-- C8: for every NE node with a simplification-eligible operand type, the
NE visitor computes the simplification of `not (a == b)`; if that result
is itself a not-equal node whose operands are identical to the original
operands it returns the exact original NE node, and otherwise it returns
the simplified result unchanged. -/
theorem C8_ne_delegation (s : Simplify) (a b : Expr) (req : Bool)
    (h : may_simplify a.type = true) :
    s.visit_ne a b req =
      (match (s.mutate (Expr.Not (Expr.EQ a b)) req).1 with
        | Expr.NE x y =>
            if x = a ∧ y = b then Expr.NE a b else Expr.NE x y
        | m => m) :=
  visit_ne_delegate s a b req h

/-- Witness for C8 at a concrete instance: an int32 comparison under the
identity simplifier, whose delegation result is `not (x == y)`. -/
theorem C8_ne_delegation_witness :
    id_simplify.visit_ne (Expr.Var i32 "x") (Expr.Var i32 "y") false =
      (match (id_simplify.mutate
          (Expr.Not (Expr.EQ (Expr.Var i32 "x") (Expr.Var i32 "y"))) false).1 with
        | Expr.NE x y =>
            if x = Expr.Var i32 "x" ∧ y = Expr.Var i32 "y"
              then Expr.NE (Expr.Var i32 "x") (Expr.Var i32 "y")
              else Expr.NE x y
        | m => m) :=
  C8_ne_delegation id_simplify (Expr.Var i32 "x") (Expr.Var i32 "y") false
    (by decide)

/-- C4: in the general numeric case, when the bounds disproofs fail,
delta's type is a no-overflow scalar integer type and the
modulus-remainder analysis reports a nonzero remainder, the EQ visitor
folds to the all-false constant of the node's lane count (the guard
forces delta scalar, so for a type-preserving mutate the node is scalar
and the scalar `const_false()` is the node's lane count). -/
theorem C4_modulus_disproof (s : Simplify) (a b : Expr) (req : Bool)
    (h1 : may_simplify a.type = true) (h2 : a.type.is_bool = false)
    (h3 : ¬((s.mutate (Expr.Sub a b) true).2.min_defined = true ∧
      0 < (s.mutate (Expr.Sub a b) true).2.min))
    (h4 : ¬((s.mutate (Expr.Sub a b) true).2.max_defined = true ∧
      (s.mutate (Expr.Sub a b) true).2.max < 0))
    (h5 : no_overflow_scalar_int ((s.mutate (Expr.Sub a b) true).1).type = true)
    (h6 : (s.modulus_remainder (s.mutate (Expr.Sub a b) true).1).remainder ≠ 0)
    (h7 : ((s.mutate (Expr.Sub a b) true).1).type = a.type) :
    s.visit_eq a b req = const_false a.type.lanes := by
  rw [visit_eq_mod_fold s a b req h1 h2 h3 h4 ⟨h5, h6⟩]
  have hl1 : a.type.lanes = 1 := by
    simp only [no_overflow_scalar_int, Bool.and_eq_true, Ty.is_scalar,
      beq_iff_eq] at h5
    rw [← h7]
    exact h5.1
  rw [hl1]

/-- A simplifier instance whose modulus-remainder analysis reports the
fact value ≡ 1 (mod 2), with identity mutation. -/
def mod_wit : Simplify := ⟨fun e _ => (e, cb_none), fun _ => ⟨2, 1⟩⟩

/-- Witness for C4 at a concrete instance: an int32 comparison whose delta
is known odd. -/
theorem C4_modulus_disproof_witness :
    mod_wit.visit_eq (Expr.Var i32 "x") (Expr.Var i32 "y") false
      = const_false (Expr.Var i32 "x").type.lanes :=
  C4_modulus_disproof mod_wit (Expr.Var i32 "x") (Expr.Var i32 "y") false
    (by decide) (by decide) (by decide) (by decide) (by decide) (by decide)
    (by decide)

/-- C5: in the general numeric case, if the bounds computed alongside
`delta = simplify(a - b)` have a defined minimum strictly above zero or a
defined maximum strictly below zero, the EQ visitor returns the all-lanes
constant-false value sized to the node's lane count. -/
theorem C5_bounds_disproof (s : Simplify) (a b : Expr) (req : Bool)
    (h1 : may_simplify a.type = true) (h2 : a.type.is_bool = false)
    (h3 : ((s.mutate (Expr.Sub a b) true).2.min_defined = true ∧
        0 < (s.mutate (Expr.Sub a b) true).2.min) ∨
      ((s.mutate (Expr.Sub a b) true).2.max_defined = true ∧
        (s.mutate (Expr.Sub a b) true).2.max < 0)) :
    s.visit_eq a b req = const_false a.type.lanes := by
  rcases h3 with h3 | h3
  · exact visit_eq_min_fold s a b req h1 h2 h3
  · by_cases hmin : (s.mutate (Expr.Sub a b) true).2.min_defined = true ∧
        0 < (s.mutate (Expr.Sub a b) true).2.min
    · exact visit_eq_min_fold s a b req h1 h2 hmin
    · exact visit_eq_max_fold s a b req h1 h2 hmin h3

/-- Vector unsigned 8-bit type with four lanes. -/
def u8x4 : Ty := ⟨TyCode.uint, 8, 4⟩

/-- A simplifier instance whose bounds channel reports a minimum of one,
with identity mutation. -/
def bounds_wit : Simplify := ⟨fun e _ => (e, ⟨true, false, 1, 0⟩), fun _ => ⟨1, 0⟩⟩

/-- Witness for C5 at a concrete instance: a four-lane uint8 comparison
whose delta is bounded below by one; the fold is the four-lane false. -/
theorem C5_bounds_disproof_witness :
    bounds_wit.visit_eq (Expr.Var u8x4 "x") (Expr.Var u8x4 "y") false
      = const_false (Expr.Var u8x4 "x").type.lanes :=
  C5_bounds_disproof bounds_wit (Expr.Var u8x4 "x") (Expr.Var u8x4 "y") false
    (by decide) (by decide) (Or.inl (by decide))

/-- C6: when the table stage is reached with delta a multiplication, the
zero-product rewrite fires exactly under the overflow-safety guard on
delta's type: for an overflow-safe type the visitor returns the
re-simplified `(x == 0) or (y == 0)`, and for every wrapping type it
returns the fallback equality that keeps the multiplication intact — the
zero-product rule is never applied. -/
theorem C6_zero_product_guard (s : Simplify) (a b x y : Expr) (req : Bool)
    (h1 : may_simplify a.type = true) (h2 : a.type.is_bool = false)
    (h3 : ¬((s.mutate (Expr.Sub a b) true).2.min_defined = true ∧
      0 < (s.mutate (Expr.Sub a b) true).2.min))
    (h4 : ¬((s.mutate (Expr.Sub a b) true).2.max_defined = true ∧
      (s.mutate (Expr.Sub a b) true).2.max < 0))
    (h5 : ¬(no_overflow_scalar_int ((s.mutate (Expr.Sub a b) true).1).type = true ∧
      (s.modulus_remainder (s.mutate (Expr.Sub a b) true).1).remainder ≠ 0))
    (hD : (s.mutate (Expr.Sub a b) true).1 = Expr.Mul x y) :
    s.visit_eq a b req =
      (if no_overflow (Expr.Mul x y).type = true
        then (s.mutate (Expr.Or (Expr.EQ x (make_zero x.type))
          (Expr.EQ y (make_zero y.type))) req).1
        else Expr.EQ (Expr.Mul x y) (make_zero a.type)) := by
  rw [visit_eq_tables s a b req h1 h2 h3 h4 h5, hD]
  by_cases hno : no_overflow (Expr.Mul x y).type = true
  · rw [if_pos hno]
    simp only [eq_table1, eq_table2]
    rw [if_pos hno]
  · rw [if_neg hno]
    simp only [eq_table1, eq_table2]
    rw [if_neg hno]

/-- A simplifier instance that cancels a subtracted zero, with no bounds
or modulus information. -/
def mul_wit : Simplify :=
  ⟨fun e _ =>
    (match e with
      | Expr.Sub m (Expr.IntImm _ 0) => m
      | e' => e', cb_none),
   fun _ => ⟨1, 0⟩⟩

/-- Witness for C6 at a concrete instance: `x * y == 0` over the wrapping
type uint8; the zero-product rewrite is not applied and the
multiplication is kept. -/
theorem C6_zero_product_guard_witness :
    mul_wit.visit_eq (Expr.Mul (Expr.Var u8 "x") (Expr.Var u8 "y"))
        (Expr.IntImm u8 0) false =
      (if no_overflow (Expr.Mul (Expr.Var u8 "x") (Expr.Var u8 "y")).type = true
        then (mul_wit.mutate (Expr.Or
          (Expr.EQ (Expr.Var u8 "x") (make_zero (Expr.Var u8 "x").type))
          (Expr.EQ (Expr.Var u8 "y") (make_zero (Expr.Var u8 "y").type))) false).1
        else Expr.EQ (Expr.Mul (Expr.Var u8 "x") (Expr.Var u8 "y"))
          (make_zero (Expr.Mul (Expr.Var u8 "x") (Expr.Var u8 "y")).type)) :=
  C6_zero_product_guard mul_wit
    (Expr.Mul (Expr.Var u8 "x") (Expr.Var u8 "y")) (Expr.IntImm u8 0)
    (Expr.Var u8 "x") (Expr.Var u8 "y") false
    (by decide) (by decide) (by decide) (by decide) (by decide) (by decide)

/-- A simplifier instance that canonicalizes the one subtraction
`x - 3 : uint8` into `x + 253` and maps every other mutation request to a
marker variable, to make any re-simplification of a rewrite result
observable. -/
def c2_wit : Simplify :=
  ⟨fun e _ =>
    (match e with
      | Expr.Sub (Expr.Var t n) (Expr.IntImm t2 3) =>
          Expr.Add (Expr.Var t n) (Expr.IntImm t2 253)
      | _ => Expr.Var u8 "MARK", cb_none),
   fun _ => ⟨1, 0⟩⟩

/-- Counterexample to C2: on `x == 3 : uint8` the linear-isolation rule
(group (a)-(b), source lines 55-59) matches with the template
`x == fold(-c0)`, and the visitor returns the instantiated template
itself; re-simplifying that template under the same simplifier gives a
different expression, so the template was not recursively simplified
before being returned. -/
theorem C2_counterexample :
    c2_wit.visit_eq (Expr.Var u8 "x") (Expr.IntImm u8 3) false
      = Expr.EQ (Expr.Var u8 "x") (Expr.IntImm u8 3) ∧
    (c2_wit.mutate (Expr.EQ (Expr.Var u8 "x") (Expr.IntImm u8 3)) false).1
      ≠ Expr.EQ (Expr.Var u8 "x") (Expr.IntImm u8 3) := by
  constructor
  · decide
  · decide

/-- C2 (amended): only the second rewrite-table group — broadcast
distribution, zero-product, select distribution (rules (c)-(e), source
lines 61-68) — re-simplifies the instantiated template before returning;
the first group — constant folding and linear isolation (rules (a)-(b),
source lines 55-59) — returns the instantiated template directly. -/
theorem C2_rewrite_resimplification (s : Simplify) (a b : Expr) (req : Bool)
    (h1 : may_simplify a.type = true) (h2 : a.type.is_bool = false)
    (h3 : ¬((s.mutate (Expr.Sub a b) true).2.min_defined = true ∧
      0 < (s.mutate (Expr.Sub a b) true).2.min))
    (h4 : ¬((s.mutate (Expr.Sub a b) true).2.max_defined = true ∧
      (s.mutate (Expr.Sub a b) true).2.max < 0))
    (h5 : ¬(no_overflow_scalar_int ((s.mutate (Expr.Sub a b) true).1).type = true ∧
      (s.modulus_remainder (s.mutate (Expr.Sub a b) true).1).remainder ≠ 0)) :
    (∀ r, eq_table1 ((s.mutate (Expr.Sub a b) true).1) = some r →
      s.visit_eq a b req = r) ∧
    (eq_table1 ((s.mutate (Expr.Sub a b) true).1) = none →
      ∀ r, eq_table2 a.type.lanes ((s.mutate (Expr.Sub a b) true).1) = some r →
        s.visit_eq a b req = (s.mutate r req).1) := by
  constructor
  · intro r hr
    rw [visit_eq_tables s a b req h1 h2 h3 h4 h5, hr]
  · intro hn r hr
    rw [visit_eq_tables s a b req h1 h2 h3 h4 h5, hn, hr]

/-- Witness for C2 at a concrete instance: the group-(a)-(b) match on
`x == 3 : uint8` is returned as the raw template `x == 3`. -/
theorem C2_rewrite_resimplification_witness :
    c2_wit.visit_eq (Expr.Var u8 "x") (Expr.IntImm u8 3) false
      = Expr.EQ (Expr.Var u8 "x") (Expr.IntImm u8 3) :=
  (C2_rewrite_resimplification c2_wit (Expr.Var u8 "x") (Expr.IntImm u8 3) false
    (by decide) (by decide) (by decide) (by decide) (by decide)).1
    (Expr.EQ (Expr.Var u8 "x") (Expr.IntImm u8 3)) (by decide)

/-- A simplifier instance that cancels an added zero inside the right
operand of the one subtraction it is shown, leaving everything else
unchanged. -/
def c3_wit : Simplify :=
  ⟨fun e _ =>
    (match e with
      | Expr.Sub x (Expr.Add y (Expr.IntImm _ 0)) => Expr.Sub x y
      | e2 => e2, cb_none),
   fun _ => ⟨1, 0⟩⟩

/-- Counterexample to C3: on `x == (y + 0) : int32` the simplified delta
is the direct subtraction `x - y` whose right side differs from the
original operand `y + 0`; the visitor returns the rebuilt comparison
`x == y`, which is neither the original node nor an equality comparing
delta to zero — the outcome C3 prescribes for every non-identity case. -/
theorem C3_counterexample :
    c3_wit.visit_eq (Expr.Var i32 "x")
        (Expr.Add (Expr.Var i32 "y") (Expr.IntImm i32 0)) false
      = Expr.EQ (Expr.Var i32 "x") (Expr.Var i32 "y") ∧
    Expr.EQ (Expr.Var i32 "x") (Expr.Var i32 "y")
      ≠ Expr.EQ (Expr.Sub (Expr.Var i32 "x") (Expr.Var i32 "y"))
          (make_zero (Expr.Var i32 "x").type) ∧
    Expr.EQ (Expr.Var i32 "x") (Expr.Var i32 "y")
      ≠ Expr.EQ (Expr.Var i32 "x")
          (Expr.Add (Expr.Var i32 "y") (Expr.IntImm i32 0)) := by
  refine ⟨by decide, by decide, by decide⟩

/-- C3 (amended): when no disproof and no table rule applies, the visitor
inspects delta: a direct subtraction with both sides identical to the
original operands yields the exact original node; a direct subtraction
with any other sides yields a new equality of those two sides; every
non-subtraction delta yields a new equality comparing delta to the zero
constant of the original operand type. -/
theorem C3_fallback_reconstruction (s : Simplify) (a b : Expr) (req : Bool)
    (h1 : may_simplify a.type = true) (h2 : a.type.is_bool = false)
    (h3 : ¬((s.mutate (Expr.Sub a b) true).2.min_defined = true ∧
      0 < (s.mutate (Expr.Sub a b) true).2.min))
    (h4 : ¬((s.mutate (Expr.Sub a b) true).2.max_defined = true ∧
      (s.mutate (Expr.Sub a b) true).2.max < 0))
    (h5 : ¬(no_overflow_scalar_int ((s.mutate (Expr.Sub a b) true).1).type = true ∧
      (s.modulus_remainder (s.mutate (Expr.Sub a b) true).1).remainder ≠ 0))
    (h6 : eq_table1 ((s.mutate (Expr.Sub a b) true).1) = none)
    (h7 : eq_table2 a.type.lanes ((s.mutate (Expr.Sub a b) true).1) = none) :
    s.visit_eq a b req =
      (match (s.mutate (Expr.Sub a b) true).1 with
        | Expr.Sub sa sb =>
            if sa = a ∧ sb = b then Expr.EQ a b else Expr.EQ sa sb
        | _ => Expr.EQ ((s.mutate (Expr.Sub a b) true).1) (make_zero a.type)) := by
  rw [visit_eq_tables s a b req h1 h2 h3 h4 h5, h6, h7]

/-- Witness for C3 at a concrete instance: the rebuilt-subtraction case of
the fallback on `x == (y + 0) : int32`. -/
theorem C3_fallback_reconstruction_witness :
    c3_wit.visit_eq (Expr.Var i32 "x")
        (Expr.Add (Expr.Var i32 "y") (Expr.IntImm i32 0)) false
      = (match (c3_wit.mutate (Expr.Sub (Expr.Var i32 "x")
            (Expr.Add (Expr.Var i32 "y") (Expr.IntImm i32 0))) true).1 with
          | Expr.Sub sa sb =>
              if sa = Expr.Var i32 "x" ∧
                  sb = Expr.Add (Expr.Var i32 "y") (Expr.IntImm i32 0)
                then Expr.EQ (Expr.Var i32 "x")
                  (Expr.Add (Expr.Var i32 "y") (Expr.IntImm i32 0))
                else Expr.EQ sa sb
          | _ => Expr.EQ (c3_wit.mutate (Expr.Sub (Expr.Var i32 "x")
              (Expr.Add (Expr.Var i32 "y") (Expr.IntImm i32 0))) true).1
              (make_zero (Expr.Var i32 "x").type)) :=
  C3_fallback_reconstruction c3_wit (Expr.Var i32 "x")
    (Expr.Add (Expr.Var i32 "y") (Expr.IntImm i32 0)) false
    (by decide) (by decide) (by decide) (by decide) (by decide) (by decide)
    (by decide)

/-- Pattern-with-guard of the first select-distribution rewrite
(`rewrite(select(x, 0, y) == 0, ...)`, source line 63): the true branch
is the literal zero constant. -/
def sel_rule1_matches : Expr → Bool
  | Expr.Select _ (Expr.IntImm _ v) _ => v == 0
  | _ => false

/-- Pattern-with-guard of the second select-distribution rewrite
(`rewrite(select(x, c0, y) == 0, ..., c0 != 0)`, source line 64): the
true branch is a constant, guarded nonzero. -/
def sel_rule2_matches : Expr → Bool
  | Expr.Select _ (Expr.IntImm _ v) _ => !(v == 0)
  | _ => false

/-- Pattern-with-guard of the third select-distribution rewrite
(`rewrite(select(x, y, 0) == 0, ...)`, source line 65): the false branch
is the literal zero constant. -/
def sel_rule3_matches : Expr → Bool
  | Expr.Select _ _ (Expr.IntImm _ v) => v == 0
  | _ => false

/-- Pattern-with-guard of the fourth select-distribution rewrite
(`rewrite(select(x, y, c0) == 0, ..., c0 != 0)`, source line 66): the
false branch is a constant, guarded nonzero. -/
def sel_rule4_matches : Expr → Bool
  | Expr.Select _ _ (Expr.IntImm _ v) => !(v == 0)
  | _ => false

/-- Counterexample to C7's mutual-exclusivity part: the concrete shape
`select(c, 0, 5)` is matched, pattern and guard included, by both the
first and the fourth select-distribution rewrites; only the declared order
makes the applied rule unique. -/
theorem C7_counterexample :
    sel_rule1_matches (Expr.Select (Expr.Var (boolTy 1) "c")
        (Expr.IntImm i32 0) (Expr.IntImm i32 5)) = true ∧
    sel_rule4_matches (Expr.Select (Expr.Var (boolTy 1) "c")
        (Expr.IntImm i32 0) (Expr.IntImm i32 5)) = true := by
  refine ⟨by decide, by decide⟩

/-- C7 (amended): the four select-distribution rewrites are applied
first-match in source order, which makes the applied rule unique even
though the patterns overlap when both branches are literal constants; the
constant-branch variants are guarded by `c0 ≠ 0`, and when the constant
branch is exactly zero the unguarded zero-pattern rule, tried earlier,
fires instead, so the guarded variants never fire on a zero constant. In
particular `simplify(select(cond, 0, y) == 0)` yields `cond or (y == 0)`
and `simplify(select(cond, 5, y) == 0)` yields
`(not cond) and (y == 0)`. -/
theorem C7_select_distribution :
    (∀ (lanes : Nat) (X Y : Expr) (t0 : Ty) (c0 : Int),
      eq_table2 lanes (Expr.Select X (Expr.IntImm t0 c0) Y) =
        some (if c0 = 0 then Expr.Or X (Expr.EQ Y (make_zero Y.type))
          else Expr.And (Expr.Not X) (Expr.EQ Y (make_zero Y.type)))) ∧
    ((simp0 6).visit_eq
        (Expr.Select (Expr.Var (boolTy 1) "c") (Expr.IntImm i32 0)
          (Expr.Var i32 "y"))
        (Expr.IntImm i32 0) false
      = Expr.Or (Expr.Var (boolTy 1) "c")
          (Expr.EQ (Expr.Var i32 "y") (Expr.IntImm i32 0))) ∧
    ((simp0 6).visit_eq
        (Expr.Select (Expr.Var (boolTy 1) "c") (Expr.IntImm i32 5)
          (Expr.Var i32 "y"))
        (Expr.IntImm i32 0) false
      = Expr.And (Expr.Not (Expr.Var (boolTy 1) "c"))
          (Expr.EQ (Expr.Var i32 "y") (Expr.IntImm i32 0))) := by
  refine ⟨?_, by decide, by decide⟩
  intro lanes X Y t0 c0
  by_cases hc0 : c0 = 0
  · simp [eq_table2, hc0]
  · simp [eq_table2, hc0]

/-- Supporting example (spec §8): `x != x` folds to the all-false
constant through the NE delegation, the subtraction rewrite `x - x -> 0`,
the constant-folding table rule and the boolean negation fold. -/
theorem ne_self_fold_example :
    (simp0 6).visit_ne (Expr.Var i32 "x") (Expr.Var i32 "x") false
      = Expr.IntImm (boolTy 1) 0 := by
  decide

/-- Supporting example (spec §8): `(x + 3) == 0` rewrites to `x == -3`
by linear isolation. -/
theorem linear_isolation_example :
    (simp0 6).visit_eq (Expr.Add (Expr.Var i32 "x") (Expr.IntImm i32 3))
        (Expr.IntImm i32 0) false
      = Expr.EQ (Expr.Var i32 "x") (Expr.IntImm i32 (-3)) := by
  decide

/-- Supporting example (spec §8): `flag == true` collapses to `flag` and
`flag == false` to `not flag`. -/
theorem bool_collapse_example :
    ((simp0 6).visit_eq (Expr.Var (boolTy 1) "flag") (Expr.IntImm (boolTy 1) 1)
        false = Expr.Var (boolTy 1) "flag") ∧
    ((simp0 6).visit_eq (Expr.Var (boolTy 1) "flag") (Expr.IntImm (boolTy 1) 0)
        false = Expr.Not (Expr.Var (boolTy 1) "flag")) := by
  refine ⟨by decide, by decide⟩

/-- Supporting example (spec §8): over the overflow-safe type int32,
`x * y == 0` rewrites to `(x == 0) or (y == 0)`. -/
theorem zero_product_example :
    (simp0 6).visit_eq (Expr.Mul (Expr.Var i32 "x") (Expr.Var i32 "y"))
        (Expr.IntImm i32 0) false
      = Expr.Or (Expr.EQ (Expr.Var i32 "x") (Expr.IntImm i32 0))
          (Expr.EQ (Expr.Var i32 "y") (Expr.IntImm i32 0)) := by
  decide

end HalideAS
